import Mathlib

set_option maxRecDepth 8000

set_option linter.unusedVariables false

/-!
Verification development for the commit ingestion, classification and
chain-reconstruction engine (webhook monitor).

Shallow embedding conventions used throughout this file:

* Python `str` is modelled by Lean `String`; `len(s)` on a `str` counts Unicode
  code points, matching `String.length`.
* Python `None` / missing dictionary keys are modelled by `Option`; Python
  truthiness of an optional string (`if x:`) is `strTruthy` (present and
  non-empty).
* Python `float` arithmetic on similarity ratios is modelled by exact rational
  arithmetic over `ℚ` (all the quantities compared are ratios of small
  integers; the numeric thresholds 0.95, 0.80, 0.7 and 5 are carried exactly).
* The remote host (GitHub API) is modelled by oracles: `details` maps a commit
  id to its commit detail (`none` for a missing commit) and `fetch` maps a
  (path, ref) query to a `FetchOutcome`.  `FetchOutcome.exn` models a raised
  transport exception from the HTTP client (there is no try/except around
  `requests.get` in `get_file_content`), `FetchOutcome.httpError` models a
  completed response with a non-success status (the function returns the empty
  string), and `FetchOutcome.ok c` a successful fetch of decoded content `c`.
  Exception propagation is modelled by `Except Unit`.
* The on-disk store (one JSON file per commit sha) is modelled by a list of
  records looked up by `commit_sha`; writing a record replaces an existing
  record with the same sha, else appends.
* The recursion of `get_file_at_commit` is modelled with an explicit fuel
  parameter: result `none` means the fuel was exhausted (the call has not
  terminated within that many nested calls), `some r` means the Python call
  terminates and returns `r` (an `Option String`, `none` being Python `None`).
* `difflib.SequenceMatcher(None, a, b).ratio()` (CPython implementation,
  including the autojunk popularity filter; the junk parameter is `None`, so
  the `bjunk` set is empty and the two junk-extension loops of
  `find_longest_match` never fire) is embedded below over `List Char`.  The
  queue in `get_matching_blocks` only changes the order in which matching
  blocks are discovered, never the blocks themselves, so the total matched
  size is computed by a structurally equivalent recursion (`matchSumFuel`).
-/

/-- Python truthiness of an optional string: present and non-empty. -/
def strTruthy : Option String → Bool
  | none => false
  | some s => s ≠ ""

/-- Contiguous-sublist test on character lists (Python `in` on strings). -/
def charListInfix (needle : List Char) : List Char → Bool
  | [] => needle.isEmpty
  | c :: rest => needle.isPrefixOf (c :: rest) || charListInfix needle rest

/-- Python `needle in hay` substring test on strings. -/
def isSubstr (needle hay : String) : Bool :=
  charListInfix needle.data hay.data

/-- Python `str.lower()` (ASCII case folding; every string in this
development is ASCII). -/
def pyLower (s : String) : String :=
  String.mk (s.data.map fun c =>
    if 'A' ≤ c ∧ c ≤ 'Z' then Char.ofNat (c.toNat + 32) else c)

/-- Python `s.split(sep)` for a one-character separator, accumulator form. -/
def splitCharAux (sep : Char) : List Char → List Char → List String
  | [], acc => [String.mk acc.reverse]
  | c :: rest, acc =>
      if c = sep then String.mk acc.reverse :: splitCharAux sep rest []
      else splitCharAux sep rest (c :: acc)

/-- Python `s.split(sep)` for a one-character separator. -/
def splitChar (s : String) (sep : Char) : List String :=
  splitCharAux sep s.data []

/-- Python `sep.join(lines)` for a one-character separator. -/
def joinChar (sep : Char) (lines : List String) : String :=
  String.mk (List.intercalate [sep] (lines.map String.data))

/-- Python `s.startswith(p)`. -/
def pyStartsWith (s p : String) : Bool :=
  p.data.isPrefixOf s.data

/-- Python `s.endswith(p)`. -/
def pyEndsWith (s p : String) : Bool :=
  List.isSuffixOf p.data s.data

/-- Python `s[n:]` on strings. -/
def pyDrop (s : String) (n : Nat) : String :=
  String.mk (s.data.drop n)

/-- A file entry of the GitHub commit-detail payload (`commit['files'][k]`),
with the fields read by `analyze_commit` and `_analyze_files`. -/
structure GHFile where
  filename : String
  status : String
  patch : String
  additions : Nat
  deletions : Nat
  changes : Nat
deriving DecidableEq, Repr

/-- Commit detail returned by `get_commit_details` (the fields used by
`analyze_commit`); a missing commit is the oracle returning `none`. -/
structure CommitDetail where
  files : List GHFile
  statsAdditions : Nat
  statsDeletions : Nat
  message : String
  parents : List String
deriving DecidableEq, Repr

/-- Outcome of one remote content fetch (`requests.get` inside
`get_file_content`): a raised transport exception, a completed non-success
response, or decoded content. -/
inductive FetchOutcome where
  | exn : FetchOutcome
  | httpError : FetchOutcome
  | ok : String → FetchOutcome
deriving DecidableEq, Repr

/-- `GitHubMonitor.get_file_content`: returns the decoded content on a 200
response, the empty string on a non-success status (and on a base64 decode
failure, which the oracle folds into `ok ""`), and lets a transport exception
from `requests.get` propagate (there is no try/except around it). -/
def getFileContent (fetch : String → String → FetchOutcome)
    (path ref : String) : Except Unit String :=
  match fetch path ref with
  | .exn => .error ()
  | .httpError => .ok ""
  | .ok c => .ok c

/-- One stored file diff (an element of the `files` list of a stored commit
record).  `storage_type` and `before_reference` are read by the
reconstruction engine via `.get`, so an absent key is `none`; the ingestion
pipeline never writes either key. -/
structure FileDiffRec where
  filename : String
  status : String
  additions : Nat
  deletions : Nat
  changes : Nat
  patch : String
  storage_type : Option String
  before_code : Option String
  after_code : Option String
  before_reference : Option String
deriving DecidableEq, Repr

/-- The base file-diff dictionary built at the top of the per-file loop of
`analyze_commit`, before the capture-policy branches fill in
`before_code` / `after_code`. -/
def baseFileDiff (f : GHFile) : FileDiffRec :=
  { filename := f.filename
    status := f.status
    additions := f.additions
    deletions := f.deletions
    changes := f.changes
    patch := f.patch
    storage_type := none
    before_code := none
    after_code := none
    before_reference := none }

/-- The per-file body of the `analyze_commit` loop (diff capture policy).
Besides the resulting record it returns the list of (path, ref) content
fetches the branch performs, in order; a transport exception aborts the whole
computation (`Except.error`), as in the source. -/
def buildFileDiff (fetch : String → String → FetchOutcome)
    (sha : String) (parentSha : Option String) (f : GHFile) :
    Except Unit (FileDiffRec × List (String × String)) :=
  let base := baseFileDiff f
  let needsFullFile : Bool := f.patch.length > 800

  if f.status = "added" then
    if needsFullFile then do
      let ac ← getFileContent fetch f.filename sha
      pure ({ base with after_code := some ac, before_code := none },
            [(f.filename, sha)])
    else
      pure ({ base with after_code := none, before_code := none }, [])
  else if f.status = "removed" then
    pure ({ base with before_code := none, after_code := none }, [])
  else if f.status = "modified" then
    if needsFullFile then
      match parentSha with
      | some p => do
          let bc ← getFileContent fetch f.filename p
          let ac ← getFileContent fetch f.filename sha
          pure ({ base with before_code := some bc, after_code := some ac },
                [(f.filename, p), (f.filename, sha)])
      | none => do
          let ac ← getFileContent fetch f.filename sha
          pure ({ base with before_code := none, after_code := some ac },
                [(f.filename, sha)])
    else
      pure ({ base with before_code := none, after_code := none }, [])
  else if f.status = "renamed" then
    if needsFullFile then do
      let ac ← getFileContent fetch f.filename sha
      pure ({ base with after_code := some ac, before_code := none },
            [(f.filename, sha)])
    else
      pure ({ base with before_code := none, after_code := none }, [])
  else
    pure (base, [])

/-- The whole per-file loop of `analyze_commit` over the commit's file list,
accumulating the produced records and all fetches in order. -/
def buildDiffs (fetch : String → String → FetchOutcome)
    (sha : String) (parentSha : Option String) :
    List GHFile → Except Unit (List FileDiffRec × List (String × String))
  | [] => pure ([], [])
  | f :: fs => do
      let (d, log) ← buildFileDiff fetch sha parentSha f
      let (ds, logs) ← buildDiffs fetch sha parentSha fs
      pure (d :: ds, log ++ logs)

/-- The aggregate per-file analysis dictionary of `_analyze_files`.
The `directories` set is modelled as a duplicate-free list (insertion order),
the `extensions` histogram as an association list. -/
structure FileAnalysis where
  new_files : Nat
  deleted_files : Nat
  modified_files : Nat
  extensions : List (String × Nat)
  directories : List String
  has_dependencies : Bool
  has_config : Bool
  has_docs : Bool
  has_tests : Bool
  large_changes : Nat
deriving DecidableEq, Repr

/-- The dependency-manifest names of `_analyze_files` (tested verbatim, with
`in filename.lower()`, so the two capitalised names can never match a
lower-cased path). -/
def dependencyFiles : List String :=
  ["package.json", "requirements.txt", "pom.xml", "build.gradle",
   "Gemfile", "Cargo.toml", "go.mod", "composer.json",
   "package-lock.json", "yarn.lock"]

/-- The config-file names of `_analyze_files`. -/
def configFiles : List String :=
  [".env", "config.json", "config.yaml", "settings.py",
   "webpack.config.js", "tsconfig.json", ".gitignore"]

/-- Histogram update `d[k] = d.get(k, 0) + 1` on an association list. -/
def bumpCount (l : List (String × Nat)) (k : String) : List (String × Nat) :=
  if l.any (fun p => p.1 = k) then
    l.map (fun p => if p.1 = k then (p.1, p.2 + 1) else p)
  else
    l ++ [(k, 1)]

/-- Set insertion `s.add(x)` on a duplicate-free list. -/
def insertUniq (l : List String) (s : String) : List String :=
  if l.contains s then l else l ++ [s]

/-- Status-count update of the `_analyze_files` loop body. -/
def stepStatus (a : FileAnalysis) (f : GHFile) : FileAnalysis :=
  if f.status = "added" then { a with new_files := a.new_files + 1 }
  else if f.status = "removed" then { a with deleted_files := a.deleted_files + 1 }
  else { a with modified_files := a.modified_files + 1 }

/-- Extension-histogram update of the loop body. -/
def stepExt (a : FileAnalysis) (f : GHFile) : FileAnalysis :=
  if f.filename.data.contains '.' then
    { a with extensions := bumpCount a.extensions ((splitChar f.filename '.').getLastD "") }
  else a

/-- Top-level-directory update of the loop body. -/
def stepDir (a : FileAnalysis) (f : GHFile) : FileAnalysis :=
  if f.filename.data.contains '/' then
    { a with directories := insertUniq a.directories ((splitChar f.filename '/').headD "") }
  else a

/-- Dependency-flag update of the loop body. -/
def stepDeps (a : FileAnalysis) (f : GHFile) : FileAnalysis :=
  if dependencyFiles.any (fun dep => isSubstr dep (pyLower f.filename)) then
    { a with has_dependencies := true }
  else a

/-- Config-flag update of the loop body. -/
def stepConfig (a : FileAnalysis) (f : GHFile) : FileAnalysis :=
  if configFiles.any (fun cfg => isSubstr cfg (pyLower f.filename)) then
    { a with has_config := true }
  else a

/-- Docs-flag update of the loop body. -/
def stepDocs (a : FileAnalysis) (f : GHFile) : FileAnalysis :=
  if isSubstr "readme" (pyLower f.filename) || pyEndsWith f.filename ".md" then
    { a with has_docs := true }
  else a

/-- Tests-flag update of the loop body. -/
def stepTests (a : FileAnalysis) (f : GHFile) : FileAnalysis :=
  if isSubstr "test" (pyLower f.filename) || isSubstr "spec" (pyLower f.filename) then
    { a with has_tests := true }
  else a

/-- Large-change count update of the loop body. -/
def stepLarge (a : FileAnalysis) (f : GHFile) : FileAnalysis :=
  if f.changes > 100 then { a with large_changes := a.large_changes + 1 } else a

/-- The per-file step of the `_analyze_files` loop: the eight successive
if-statements of the source body, applied in source order. -/
def analyzeFileStep (a : FileAnalysis) (f : GHFile) : FileAnalysis :=
  stepLarge (stepTests (stepDocs (stepConfig (stepDeps (stepDir (stepExt
    (stepStatus a f) f) f) f) f) f) f) f

/-- The empty analysis dictionary `_analyze_files` starts from. -/
def emptyAnalysis : FileAnalysis :=
  { new_files := 0, deleted_files := 0, modified_files := 0,
    extensions := [], directories := [],
    has_dependencies := false, has_config := false,
    has_docs := false, has_tests := false, large_changes := 0 }

/-- `GitHubMonitor._analyze_files`. -/
def analyzeFiles (files : List GHFile) : FileAnalysis :=
  files.foldl analyzeFileStep emptyAnalysis

/-- `GitHubMonitor._classify_work`: the thirteen ordered rules, first match
wins; returns (event type, human-readable description). -/
def classifyWork (a : FileAnalysis) (files_changed additions deletions : Nat)
    (message : String) : String × String :=
  if a.has_dependencies then
    ("dependency_update", "Dependency update (" ++ toString files_changed ++ " files)")
  else if a.directories.length > 1 ∧ a.new_files > 3 then
    ("new_module", "New module added (" ++ toString a.new_files ++ " new files)")
  else if a.has_config ∧ files_changed ≤ 3 then
    ("config_change", "Configuration update")
  else if a.has_docs ∧ files_changed ≤ 2 then
    ("documentation", "Documentation update")
  else if a.has_tests then
    ("testing", "Test files updated (" ++ toString files_changed ++ " files)")
  else if deletions > additions ∧ deletions > 200 then
    ("refactor", "Code refactoring (" ++ toString deletions ++ " lines removed)")
  else if additions > 300 then
    ("major_feature", "Major feature update (+" ++ toString additions ++ " lines)")
  else if a.new_files > 0 then
    ("files_added", toString a.new_files ++ " new files added")
  else if a.deleted_files > 0 then
    ("cleanup", toString a.deleted_files ++ " files removed")
  else if ["fix", "bug", "patch"].any (fun k => isSubstr k (pyLower message)) then
    ("bug_fix", "Bug fix (" ++ toString files_changed ++ " files)")
  else if ["feat", "feature", "add"].any (fun k => isSubstr k (pyLower message)) then
    ("feature", "Feature implementation (" ++ toString files_changed ++ " files)")
  else if files_changed ≤ 2 ∧ additions < 50 then
    ("minor_update", "Minor update (" ++ toString files_changed ++ " files)")
  else
    ("major_update", "Major update (" ++ toString files_changed ++ " files)")

/-- The classified event embedded in a stored commit record. -/
structure Event where
  type : String
  description : String
  files_changed : Nat
  total_additions : Nat
  total_deletions : Nat
deriving DecidableEq, Repr

/-- `GitHubMonitor.analyze_commit`: `Except.error` models a propagated
transport exception from a content fetch; `.ok none` models the
`({}, [], None)` result for a commit the host does not know (the caller skips
it via `if not event: continue`). -/
def analyzeCommit (details : String → Option CommitDetail)
    (fetch : String → String → FetchOutcome) (sha : String) :
    Except Unit (Option (Event × List FileDiffRec × Option String)) :=
  match details sha with
  | none => .ok none
  | some commit => do
      let parentSha := commit.parents.head?
      let (diffs, _log) ← buildDiffs fetch sha parentSha commit.files
      let analysis := analyzeFiles commit.files
      let ed := classifyWork analysis commit.files.length
        commit.statsAdditions commit.statsDeletions commit.message
      pure (some
        ({ type := ed.1, description := ed.2,
           files_changed := commit.files.length,
           total_additions := commit.statsAdditions,
           total_deletions := commit.statsDeletions },
         diffs, parentSha))

/-- A stored commit record (`commit_data` written by `save_commit_history`,
one JSON file per commit sha; the author dictionary is carried opaquely as a
string). -/
structure CommitData where
  commit_sha : String
  parent_sha : Option String
  timestamp : String
  message : String
  author : String
  event : Event
  files : List FileDiffRec
deriving DecidableEq, Repr

/-- The per-repository commit store (the `commit_history/{owner}_{repo}`
directory): records looked up by `commit_sha`. -/
abbrev Store := List CommitData

/-- `load_commit` of the reconstruction engine (and the `{sha}.json` file
lookup of the dashboard routes). -/
def loadCommit (store : Store) (sha : String) : Option CommitData :=
  store.find? (fun c => c.commit_sha = sha)

/-- `save_commit_history`: writing `{sha}.json` replaces the record with that
sha if present, else creates it. -/
def saveCommitHistory (store : Store) (cd : CommitData) : Store :=
  if store.any (fun c => c.commit_sha = cd.commit_sha) then
    store.map (fun c => if c.commit_sha = cd.commit_sha then cd else c)
  else
    store ++ [cd]

/-- A commit summary from the push-notification payload (`payload['commits']`). -/
structure PushCommit where
  id : String
  message : String
  author : String
deriving DecidableEq, Repr

/-- The `commit_data` dictionary assembled in the webhook handler for one
successfully analyzed commit; `now` is the `datetime.now().isoformat()`
ingestion timestamp. -/
def mkCommitData (pc : PushCommit) (now : String) (event : Event)
    (diffs : List FileDiffRec) (parentSha : Option String) : CommitData :=
  { commit_sha := pc.id
    parent_sha := parentSha
    timestamp := now
    message := pc.message
    author := pc.author
    event := event
    files := diffs }

/-- The per-commit loop of the webhook handler `github_webhook`: a commit with
a falsy id is skipped, an analysis returning an empty event is skipped, a
raised exception is caught (`except Exception`) and that commit is skipped;
otherwise the record is written.  The clock is passed in as `now` (the source
reads `datetime.now()` once per commit; a single batch value is enough for the
properties below, which never compare timestamps inside one batch). -/
def processCommits (details : String → Option CommitDetail)
    (fetch : String → String → FetchOutcome) (now : String)
    (store : Store) : List PushCommit → Store
  | [] => store
  | pc :: rest =>
      if pc.id = "" then processCommits details fetch now store rest
      else
        match analyzeCommit details fetch pc.id with
        | .error _ => processCommits details fetch now store rest
        | .ok none => processCommits details fetch now store rest
        | .ok (some (event, diffs, parentSha)) =>
            processCommits details fetch now
              (saveCommitHistory store (mkCommitData pc now event diffs parentSha)) rest

/-- `IncrementalFileReconstructor._extract_content_from_patch`: the added
lines of a unified diff, header markers excluded, with the leading `+`
stripped. -/
def extractContentFromPatch (patch : String) : String :=
  joinChar '\n'
    (((splitChar patch '\n').filter
        (fun line => pyStartsWith line "+" && !pyStartsWith line "+++")).map
      (fun line => pyDrop line 1))

/-- `IncrementalFileReconstructor.get_file_at_commit`, with an explicit fuel
bound on the recursion depth: `none` is fuel exhaustion (the recursion has not
bottomed out within `fuel` nested calls), `some r` is normal termination with
Python result `r`.  In the `incremental_update` branch the source returns
`parent_content` on both sides of its `if parent_content and patch` test, so
the branch is a single recursive resolution. -/
def getFileAtCommit (store : Store) :
    Nat → String → String → Option (Option String)
  | 0, _, _ => none
  | fuel + 1, sha, fname =>
    match loadCommit store sha with
    | none => some none
    | some commit =>
      match commit.files.find? (fun fd => fd.filename = fname) with
      | some fd =>
        let storageType := fd.storage_type.getD "unknown"
        if strTruthy fd.after_code then
          some fd.after_code
        else if storageType = "incremental_update" ∧ strTruthy fd.before_reference then
          match getFileAtCommit store fuel (fd.before_reference.getD "") fname with
          | none => none
          | some parentContent => some parentContent
        else if fd.patch ≠ "" then
          if storageType = "patch_new" then
            some (some (extractContentFromPatch fd.patch))
          else if storageType = "patch_only" then
            if strTruthy commit.parent_sha then
              match getFileAtCommit store fuel (commit.parent_sha.getD "") fname with
              | none => none
              | some parentContent =>
                  if strTruthy parentContent then some parentContent else some none
            else some none
          else some none
        else some none
      | none =>
        if strTruthy commit.parent_sha then
          getFileAtCommit store fuel (commit.parent_sha.getD "") fname
        else some none

/-- Result of `detect_development_pattern` (the percentage / average fields of
the source are float formatting of the quantities below and carry no further
information). -/
structure DevPattern where
  pattern : String
  total_commits : Nat
deriving DecidableEq, Repr

/-- Total touched-file count of a commit sequence
(`sum(c['event']['files_changed'] for c in commits)`). -/
def totalFiles (commits : List CommitData) : Nat :=
  (commits.map (fun c => c.event.files_changed)).sum

/-- Average files changed per commit, as an exact rational. -/
def avgFilesPerCommit (commits : List CommitData) : ℚ :=
  (totalFiles commits : ℚ) / (commits.length : ℚ)

/-- Fraction of all touched files contributed by the first commit (0 when
no files were touched at all, as in the source). -/
def firstCommitRatio (commits : List CommitData) : ℚ :=
  match commits with
  | [] => 0
  | first :: _ =>
      if 0 < totalFiles commits then
        (first.event.files_changed : ℚ) / (totalFiles commits : ℚ)
      else 0

/-- `CommitEvolutionAnalyzer.detect_development_pattern`. -/
def detectDevelopmentPattern (commits : List CommitData) : DevPattern :=
  match commits with
  | [] => { pattern := "no_commits", total_commits := 0 }
  | _ :: _ =>
      if firstCommitRatio commits > 7 / 10 then
        { pattern := "bulk_upload", total_commits := commits.length }
      else if avgFilesPerCommit commits < 5 then
        { pattern := "gradual_development", total_commits := commits.length }
      else
        { pattern := "mixed_development", total_commits := commits.length }

/-- Ascending positions of a character in `b` (the `b2j` index of
`SequenceMatcher.__chain_b` before the autojunk filter). -/
def charPositions (b : List Char) (c : Char) : List Nat :=
  (List.range b.length).filter (fun j => b.get? j = some c)

/-- The autojunk popularity test of `SequenceMatcher.__chain_b`: with
`len(b) >= 200`, characters occurring more than `len(b) // 100 + 1` times are
dropped from the index. -/
def isPopularChar (b : List Char) (c : Char) : Bool :=
  b.length ≥ 200 ∧ (charPositions b c).length > b.length / 100 + 1

/-- The `b2j` index of `SequenceMatcher`: positions of each character of `b`,
with popular characters removed. -/
def b2jList (b : List Char) (c : Char) : List Nat :=
  if isPopularChar b c then [] else charPositions b c

/-- Running best match of `find_longest_match`. -/
structure FLM where
  besti : Nat
  bestj : Nat
  bestsize : Nat
deriving DecidableEq, Repr

/-- Inner loop of `find_longest_match` over the position list `b2j[a[i]]`:
`continue` below `blo`, `break` at `bhi`, otherwise extend the diagonal chain
(`newj2len[j] = j2len.get(j-1, 0) + 1`, where a lookup at key `-1` yields 0)
and update the running best on a strict improvement. -/
def flmInner (i blo bhi : Nat) (j2len : Nat → Nat) :
    List Nat → (Nat → Nat) → FLM → (Nat → Nat) × FLM
  | [], acc, best => (acc, best)
  | j :: rest, acc, best =>
      if j < blo then flmInner i blo bhi j2len rest acc best
      else if bhi ≤ j then (acc, best)
      else
        let k := (if j = 0 then 0 else j2len (j - 1)) + 1
        let acc2 : Nat → Nat := fun j2 => if j2 = j then k else acc j2
        let best2 : FLM :=
          if k > best.bestsize then ⟨i + 1 - k, j + 1 - k, k⟩ else best
        flmInner i blo bhi j2len rest acc2 best2

/-- Outer loop of `find_longest_match` over the `a`-indices `alo, ..., ahi-1`;
each step replaces `j2len` by the freshly built `newj2len`. -/
def flmOuter (a : List Char) (bj : Char → List Nat) (blo bhi : Nat) :
    List Nat → (Nat → Nat) → FLM → FLM
  | [], _, best => best
  | i :: rest, j2len, best =>
      let s := flmInner i blo bhi j2len (bj (a.getD i ' ')) (fun _ => 0) best
      flmOuter a bj blo bhi rest s.1 s.2

/-- First extension loop of `find_longest_match` (the junk set is empty, so
its guard reduces to the boundary and character-equality tests): grow the
match downwards while the preceding characters agree. -/
def extendFront (a b : List Char) (alo blo : Nat) :
    Nat → Nat → Nat → Nat × Nat × Nat
  | 0, bj, k => (0, bj, k)
  | bi + 1, bj, k =>
      if alo < bi + 1 ∧ blo < bj ∧ a.getD bi ' ' = b.getD (bj - 1) ' ' then
        extendFront a b alo blo bi (bj - 1) (k + 1)
      else (bi + 1, bj, k)

/-- Second extension loop of `find_longest_match`: grow the match upwards
while the following characters agree.  Each iteration requires
`besti + bestsize < ahi`, so `ahi` bounds the iteration count and is passed as
structural fuel. -/
def extendBack (a b : List Char) (ahi bhi bi bj : Nat) : Nat → Nat → Nat
  | 0, k => k
  | fuel + 1, k =>
      if bi + k < ahi ∧ bj + k < bhi ∧ a.getD (bi + k) ' ' = b.getD (bj + k) ' ' then
        extendBack a b ahi bhi bi bj fuel (k + 1)
      else k

/-- `SequenceMatcher.find_longest_match` on the window
`a[alo:ahi]` / `b[blo:bhi]` (empty junk set). -/
def findLongestMatch (a b : List Char) (bj : Char → List Nat)
    (alo ahi blo bhi : Nat) : Nat × Nat × Nat :=
  let best := flmOuter a bj blo bhi (List.range' alo (ahi - alo)) (fun _ => 0)
    ⟨alo, blo, 0⟩
  let f := extendFront a b alo blo best.besti best.bestj best.bestsize
  (f.1, f.2.1, extendBack a b ahi bhi f.1 f.2.1 ahi f.2.2)

/-- Total size of the matching blocks found by `get_matching_blocks` on a
window: the recursion splits at the longest match exactly as the source queue
does (the queue order permutes the blocks but never changes them, and only
the total size feeds `ratio`).  The fuel only bounds the recursion depth; the
top-level call always supplies enough. -/
def matchSumFuel (a b : List Char) (bj : Char → List Nat) :
    Nat → Nat → Nat → Nat → Nat → Nat
  | 0, _, _, _, _ => 0
  | fuel + 1, alo, ahi, blo, bhi =>
      let m := findLongestMatch a b bj alo ahi blo bhi
      if m.2.2 = 0 then 0
      else
        m.2.2 +
          (if alo < m.1 ∧ blo < m.2.1 then
            matchSumFuel a b bj fuel alo m.1 blo m.2.1
          else 0) +
          (if m.1 + m.2.2 < ahi ∧ m.2.1 + m.2.2 < bhi then
            matchSumFuel a b bj fuel (m.1 + m.2.2) ahi (m.2.1 + m.2.2) bhi
          else 0)

/-- `difflib._calculate_ratio`, with the float division carried exactly. -/
def calculateRatio (m total : Nat) : ℚ :=
  if total ≠ 0 then 2 * (m : ℚ) / (total : ℚ) else 1

/-- `difflib.SequenceMatcher(None, a, b).ratio()`. -/
def seqRatio (aStr bStr : String) : ℚ :=
  let a := aStr.data
  let b := bStr.data
  calculateRatio
    (matchSumFuel a b (b2jList b) (a.length + b.length + 1) 0 a.length 0 b.length)
    (a.length + b.length)

/-- Python whitespace characters recognised by `str.split()` (ASCII range; all
content in this development is ASCII). -/
def isPySpace (c : Char) : Bool :=
  c = ' ' ∨ c = Char.ofNat 9 ∨ c = Char.ofNat 10 ∨ c = Char.ofNat 13 ∨
  c = Char.ofNat 11 ∨ c = Char.ofNat 12

/-- Python `''.join(s.split())`: remove every whitespace character. -/
def stripWs (s : String) : String :=
  String.mk (s.data.filter (fun c => !isPySpace c))

/-- One result dictionary of `analyze_code_similarity`: each branch of the
source populates a different set of keys, so every key beyond `type` and
`has_full_code` is optional. -/
structure SimResult where
  type : String
  similarity : Option Rat
  logic_similarity : Option Rat
  has_full_code : Bool
  patch_size : Option Nat
  additions : Option Nat
  deletions : Option Nat
deriving DecidableEq, Repr

/-- Character-level similarity of a stored file diff
(`difflib.SequenceMatcher(None, before_code, after_code).ratio()`). -/
def charSimOf (fd : FileDiffRec) : ℚ :=
  seqRatio (fd.before_code.getD "") (fd.after_code.getD "")

/-- Whitespace-insensitive ("logic") similarity of a stored file diff. -/
def logicSimOf (fd : FileDiffRec) : ℚ :=
  seqRatio (stripWs (fd.before_code.getD "")) (stripWs (fd.after_code.getD ""))

/-- `CommitEvolutionAnalyzer.analyze_code_similarity`. -/
def analyzeCodeSimilarity (fd : FileDiffRec) : SimResult :=
  if fd.status = "added" then
    { type := "new_file", similarity := some 0, logic_similarity := none,
      has_full_code := fd.after_code.isSome,
      patch_size := none, additions := none, deletions := none }
  else if fd.status = "removed" then
    { type := "deleted_file", similarity := some 0, logic_similarity := none,
      has_full_code := false,
      patch_size := none, additions := none, deletions := none }
  else if strTruthy fd.before_code ∧ strTruthy fd.after_code then
    let similarity := charSimOf fd
    let logicSimilarity := logicSimOf fd
    if similarity > 95 / 100 then
      { type := "minor_changes", similarity := some similarity,
        logic_similarity := none, has_full_code := true,
        patch_size := none, additions := none, deletions := none }
    else if logicSimilarity > 95 / 100 ∧ similarity < 95 / 100 then
      { type := "formatting_only", similarity := some similarity,
        logic_similarity := some logicSimilarity, has_full_code := true,
        patch_size := none, additions := none, deletions := none }
    else if logicSimilarity > 80 / 100 then
      { type := "refactoring", similarity := some similarity,
        logic_similarity := some logicSimilarity, has_full_code := true,
        patch_size := none, additions := none, deletions := none }
    else
      { type := "major_rewrite", similarity := some similarity,
        logic_similarity := some logicSimilarity, has_full_code := true,
        patch_size := none, additions := none, deletions := none }
  else
    let patchSize := fd.patch.length
    if patchSize < 200 then
      { type := "small_change", similarity := none, logic_similarity := none,
        has_full_code := false,
        patch_size := some patchSize, additions := none, deletions := none }
    else if fd.additions > fd.deletions * 2 then
      { type := "expansion", similarity := none, logic_similarity := none,
        has_full_code := false,
        patch_size := none, additions := some fd.additions, deletions := some fd.deletions }
    else if fd.deletions > fd.additions * 2 then
      { type := "reduction", similarity := none, logic_similarity := none,
        has_full_code := false,
        patch_size := none, additions := some fd.additions, deletions := some fd.deletions }
    else
      { type := "modification", similarity := none, logic_similarity := none,
        has_full_code := false,
        patch_size := some patchSize, additions := none, deletions := none }

/-- The classification mapping of section 4.5 of the specification, stated
from the specification text (refinement target for the code's branch chain):
similarity above 0.95 is `minor_changes`; logic similarity above 0.95 with
character similarity below 0.95 is `formatting_only`; logic similarity above
0.80 is `refactoring`; otherwise `major_rewrite`. -/
def specSimMap (similarity logicSimilarity : ℚ) : String :=
  if similarity > 95 / 100 then "minor_changes"
  else if logicSimilarity > 95 / 100 ∧ similarity < 95 / 100 then "formatting_only"
  else if logicSimilarity > 80 / 100 then "refactoring"
  else "major_rewrite"

/-- One-step chain condition of the diagonal DP of `find_longest_match`,
specialised to matching a list against itself on the full window: position
`j` can extend a chain at outer index `i` exactly when both indices are in
range, the characters agree, and the character survives the autojunk filter
(proof device for the identity theorem below). -/
def chainCond (a : List Char) (i j : Nat) : Prop :=
  i < a.length ∧ j < a.length ∧ a.getD j ' ' = a.getD i ' '
    ∧ isPopularChar a (a.getD i ' ') = false

instance chainCondDec (a : List Char) (i j : Nat) : Decidable (chainCond a i j) := by
  unfold chainCond
  infer_instance

/-- Length of the diagonal-DP chain ending at `(i, j)` for a list matched
against itself on the full window (proof device). -/
def semChain (a : List Char) : Nat → Nat → Nat
  | 0, j => if chainCond a 0 j then 1 else 0
  | i + 1, j =>
      if chainCond a (i + 1) j then
        match j with
        | 0 => 1
        | j' + 1 => semChain a i j' + 1
      else 0

/-- The `j2len` row as it stands when outer index `i` is about to be
processed (proof device). -/
def rowBelow (a : List Char) : Nat → Nat → Nat
  | 0 => fun _ => 0
  | i + 1 => semChain a i

/-- The dependency signal tested per file by `_analyze_files`: some known
manifest name occurs as a substring of the lower-cased path. -/
def depSignal (f : GHFile) : Bool :=
  dependencyFiles.any (fun dep => isSubstr dep (pyLower f.filename))

/-- A classifier event used to populate concrete stores in the fixtures. -/
def fixtureEvent : Event :=
  { type := "minor_update", description := "Minor update (0 files)",
    files_changed := 0, total_additions := 0, total_deletions := 0 }

/-- Cyclic fixture store: commit A's parent is B and commit B's parent is A,
neither carrying any file diff, so resolution of any filename walks the
parent chain forever. -/
def cycStore : Store :=
  [{ commit_sha := "A", parent_sha := some "B", timestamp := "t0",
     message := "", author := "", event := fixtureEvent, files := [] },
   { commit_sha := "B", parent_sha := some "A", timestamp := "t1",
     message := "", author := "", event := fixtureEvent, files := [] }]

/-- A single modified file whose path is no dependency manifest but contains
`go.mod` as a substring. -/
def djangoFile : GHFile :=
  { filename := "django.models.py", status := "modified", patch := "@@ -1 +1 @@",
    additions := 1, deletions := 1, changes := 2 }

/-- A commit record with the ingestion timestamp erased (the record as the
re-delivery invariant compares it). -/
def stripTimestamp (cd : CommitData) : CommitData :=
  { cd with timestamp := "" }

/-- C4 witness: a commit touching `requirements.txt` and `README.md` matches
the dependency signal and the documentation signal with two files, and the
classifier returns `dependency_update`. -/
def c4Files : List GHFile :=
  [{ filename := "requirements.txt", status := "modified", patch := "+requests",
     additions := 1, deletions := 0, changes := 1 },
   { filename := "README.md", status := "modified", patch := "+docs",
     additions := 1, deletions := 0, changes := 1 }]

/-- C8 witness commits: the first commit touches 8 of 10 total touched files. -/
def c8Commits : List CommitData :=
  [{ commit_sha := "r1", parent_sha := none, timestamp := "t0", message := "init",
     author := "a", files := [],
     event := { type := "files_added", description := "8 new files added",
                files_changed := 8, total_additions := 100, total_deletions := 0 } },
   { commit_sha := "r2", parent_sha := some "r1", timestamp := "t1", message := "more",
     author := "a", files := [],
     event := { type := "minor_update", description := "Minor update (2 files)",
                files_changed := 2, total_additions := 5, total_deletions := 1 } }]

/-- C3 witness fixtures: a small-patch modified file, its pipeline-produced
record (no full content, no `storage_type`), and a store holding it. -/
def c3File : GHFile :=
  { filename := "app.py", status := "modified", patch := "@@ -1 +1 @@\n-a\n+b",
    additions := 1, deletions := 1, changes := 2 }

def c3Commit : CommitData :=
  { commit_sha := "s3", parent_sha := some "p3", timestamp := "t3",
    message := "tweak", author := "a", event := fixtureEvent,
    files := [baseFileDiff c3File] }

def c3Store : Store := [c3Commit]

def c2Details : String → Option CommitDetail := fun sha =>
  if sha = "c1" then
    some { files := [], statsAdditions := 0, statsDeletions := 0,
           message := "", parents := [] }
  else none

def c2Fetch : String → String → FetchOutcome := fun _ _ => .ok ""

def c2Push : PushCommit := { id := "c1", message := "m", author := "au" }

def eAcutePatch : String := String.mk (List.replicate 401 'é')

def c5CexFile : GHFile :=
  { filename := "big.py", status := "added", patch := eAcutePatch,
    additions := 400, deletions := 0, changes := 400 }

def bigPatch : String := String.mk (List.replicate 801 'a')

def c5File : GHFile :=
  { filename := "m.py", status := "modified", patch := bigPatch,
    additions := 400, deletions := 400, changes := 800 }

def c5Fd : FileDiffRec :=
  { baseFileDiff c5File with before_code := some "C", after_code := some "C" }

def c5Log : List (String × String) := [("m.py", "p5"), ("m.py", "s5")]

/-- C9 fixtures: commit `c9` has one modified file with a large patch, so its
analysis performs fetches; commit `cA` touches no files, so its analysis
performs none.  `c9Fetch` raises a transport exception on every fetch. -/
def c9Details : String → Option CommitDetail := fun sha =>
  if sha = "c9" then
    some { files := [{ filename := "f.py", status := "modified", patch := bigPatch,
                       additions := 400, deletions := 400, changes := 800 }],
           statsAdditions := 400, statsDeletions := 400, message := "m",
           parents := ["p9"] }
  else if sha = "cA" then
    some { files := [], statsAdditions := 0, statsDeletions := 0,
           message := "n", parents := ["c9"] }
  else none

def c9Fetch : String → String → FetchOutcome := fun _ _ => .exn

def c9Push : PushCommit := { id := "c9", message := "m", author := "a" }

def cAPush : PushCommit := { id := "cA", message := "n", author := "a" }

def c9OkFetch : String → String → FetchOutcome := fun _ _ => .ok "Z"

def c9HttpFetch : String → String → FetchOutcome := fun _ _ => .httpError

def c9AddFile : GHFile :=
  { filename := "a.py", status := "added", patch := bigPatch,
    additions := 801, deletions := 0, changes := 801 }

/-- Bounds invariant on a diagonal-chain-length row of `find_longest_match`:
entries are at most `cap`, and a positive entry lies inside the `b`-window
with value at most its diagonal capacity. -/
def RowBnd (blo bhi cap : Nat) (g : Nat → Nat) : Prop :=
  ∀ j, g j ≤ cap ∧ (0 < g j → blo ≤ j ∧ j < bhi ∧ g j ≤ j + 1 - blo)

/-- Bounds invariant on the running best match: it starts at or after the
window and ends at or before it, on both sides. -/
def BestBnd (alo ahi blo bhi : Nat) (st : FLM) : Prop :=
  alo ≤ st.besti ∧ blo ≤ st.bestj
    ∧ st.besti + st.bestsize ≤ ahi ∧ st.bestj + st.bestsize ≤ bhi

def c7File : GHFile :=
  { filename := "x.py", status := "modified", patch := "",
    additions := 3, deletions := 3, changes := 6 }

def c7Fd : FileDiffRec :=
  { baseFileDiff c7File with
    before_code := some "ab", after_code := some "ab" }

def c6Before : String := "xxxxxxxxxx "

def c6After : String := "xxxxxxxxxx"

def c6File : GHFile :=
  { filename := "w.py", status := "modified", patch := "",
    additions := 1, deletions := 1, changes := 2 }

def c6CexFd : FileDiffRec :=
  { baseFileDiff c6File with
    before_code := some c6Before, after_code := some c6After }

def c6wBefore : String := "a b"

def c6wAfter : String := "a  b"

def c6wFile : GHFile :=
  { filename := "y.py", status := "modified", patch := "",
    additions := 1, deletions := 1, changes := 2 }

def c6wFd : FileDiffRec :=
  { baseFileDiff c6wFile with
    before_code := some c6wBefore, after_code := some c6wAfter }

/-- Per-file step: the dependency flag after one step is the old flag or the
file's dependency signal; no other branch of the step touches it. -/
theorem stepStatus_deps (a : FileAnalysis) (f : GHFile) :
    (stepStatus a f).has_dependencies = a.has_dependencies := by
  unfold stepStatus; split_ifs <;> rfl

theorem stepExt_deps (a : FileAnalysis) (f : GHFile) :
    (stepExt a f).has_dependencies = a.has_dependencies := by
  unfold stepExt; split_ifs <;> rfl

theorem stepDir_deps (a : FileAnalysis) (f : GHFile) :
    (stepDir a f).has_dependencies = a.has_dependencies := by
  unfold stepDir; split_ifs <;> rfl

theorem stepDeps_deps (a : FileAnalysis) (f : GHFile) :
    (stepDeps a f).has_dependencies = (a.has_dependencies || depSignal f) := by
  unfold stepDeps depSignal
  split_ifs with h
  · simp_all
  · simp_all

theorem stepConfig_deps (a : FileAnalysis) (f : GHFile) :
    (stepConfig a f).has_dependencies = a.has_dependencies := by
  unfold stepConfig; split_ifs <;> rfl

theorem stepDocs_deps (a : FileAnalysis) (f : GHFile) :
    (stepDocs a f).has_dependencies = a.has_dependencies := by
  unfold stepDocs; split_ifs <;> rfl

theorem stepTests_deps (a : FileAnalysis) (f : GHFile) :
    (stepTests a f).has_dependencies = a.has_dependencies := by
  unfold stepTests; split_ifs <;> rfl

theorem stepLarge_deps (a : FileAnalysis) (f : GHFile) :
    (stepLarge a f).has_dependencies = a.has_dependencies := by
  unfold stepLarge; split_ifs <;> rfl

theorem analyzeFileStep_has_dependencies (a : FileAnalysis) (f : GHFile) :
    (analyzeFileStep a f).has_dependencies = (a.has_dependencies || depSignal f) := by
  unfold analyzeFileStep
  rw [stepLarge_deps, stepTests_deps, stepDocs_deps, stepConfig_deps, stepDeps_deps,
    stepDir_deps, stepExt_deps, stepStatus_deps]

/-- The dependency flag of `_analyze_files` is the disjunction of the per-file
dependency signals. -/
theorem analyzeFiles_has_dependencies_aux :
    ∀ (files : List GHFile) (a : FileAnalysis),
      (files.foldl analyzeFileStep a).has_dependencies
        = (a.has_dependencies || files.any depSignal) := by
  intro files
  induction files with
  | nil => intro a; simp
  | cons f fs ih =>
      intro a
      simp only [List.foldl_cons, List.any_cons, ih, analyzeFileStep_has_dependencies,
        Bool.or_assoc]

/-- Claim C10: dependency detection in `_analyze_files` is a substring test of
each manifest name against the lower-cased file path, so a commit touching only
the single modified file `django.models.py` - which is no dependency manifest,
but contains `go.mod` as a substring - sets `has_dependencies` and is
classified `dependency_update` by rule 1. -/
theorem C10_dependency_substring_false_positive :
    (∀ files : List GHFile, (analyzeFiles files).has_dependencies = files.any depSignal)
    ∧ depSignal djangoFile = true
    ∧ dependencyFiles.all (fun d => d ≠ djangoFile.filename) = true
    ∧ isSubstr "go.mod" (pyLower djangoFile.filename) = true
    ∧ (classifyWork (analyzeFiles [djangoFile]) 1 1 1 "tidy models").1 = "dependency_update" := by
  refine ⟨?_, by decide, by decide, by decide, by decide⟩
  intro files
  simpa using analyzeFiles_has_dependencies_aux files emptyAnalysis

/-- Claim C4: the classifier's rules are evaluated in fixed priority order with
the first match winning; any commit whose files raise the dependency signal is
classified `dependency_update`, even when it also raises the documentation
signal with at most two files. -/
theorem C4_dependency_beats_documentation (files : List GHFile)
    (ad de : Nat) (msg : String)
    (hdep : (analyzeFiles files).has_dependencies = true)
    (hdocs : (analyzeFiles files).has_docs = true)
    (hfc : files.length ≤ 2) :
    (classifyWork (analyzeFiles files) files.length ad de msg).1 = "dependency_update" := by
  simp [classifyWork, hdep]

/-- Claim C4 witness: `requirements.txt` plus `README.md` matches both the
dependency and the documentation signal and classifies `dependency_update`. -/
theorem C4_dependency_beats_documentation_witness :
    (analyzeFiles c4Files).has_dependencies = true
    ∧ (analyzeFiles c4Files).has_docs = true
    ∧ c4Files.length ≤ 2
    ∧ (classifyWork (analyzeFiles c4Files) c4Files.length 2 0 "update deps").1
        = "dependency_update" :=
  ⟨by decide, by decide, by decide,
   C4_dependency_beats_documentation c4Files 2 0 "update deps"
     (by decide) (by decide) (by decide)⟩

/-- Claim C8: on a non-empty commit sequence `detect_development_pattern`
returns `bulk_upload` when the first commit's fraction of all touched files
exceeds 0.7, else `gradual_development` when the average files per commit is
below 5, else `mixed_development`; the empty history yields `no_commits`. -/
theorem C8_development_pattern :
    (∀ commits : List CommitData, commits ≠ [] →
      (detectDevelopmentPattern commits).pattern =
        (if firstCommitRatio commits > 7 / 10 then "bulk_upload"
         else if avgFilesPerCommit commits < 5 then "gradual_development"
         else "mixed_development"))
    ∧ (detectDevelopmentPattern []).pattern = "no_commits" := by
  constructor
  · intro commits h
    match commits with
    | [] => exact absurd rfl h
    | c :: cs =>
        unfold detectDevelopmentPattern
        split_ifs <;> rfl
  · rfl

/-- Claim C8 witness: a repository whose first commit touches 8 of 10 total
touched files is detected as `bulk_upload`. -/
theorem C8_development_pattern_witness :
    c8Commits ≠ []
    ∧ (detectDevelopmentPattern c8Commits).pattern = "bulk_upload" := by
  constructor
  · simp [c8Commits]
  · rw [C8_development_pattern.1 c8Commits (by simp [c8Commits])]
    have h1 : firstCommitRatio c8Commits = 8 / 10 := by
      norm_num [firstCommitRatio, c8Commits, totalFiles]
    rw [h1]
    norm_num

/-- Claim C1 (code bug): the specification demands that a cyclic parent chain
fail with `CycleDetected`, but `get_file_at_commit` has no cycle guard: on the
synthetic cyclic store A to B to A, the resolution exhausts every fuel bound,
i.e. the recursion never bottoms out (the Python original recurses until the
interpreter raises `RecursionError`). -/
theorem C1_cycle_never_terminates :
    ∀ fuel : Nat,
      getFileAtCommit cycStore fuel "A" "main.py" = none
      ∧ getFileAtCommit cycStore fuel "B" "main.py" = none := by
  intro fuel
  induction fuel with
  | zero => exact ⟨rfl, rfl⟩
  | succ n ih =>
      refine ⟨?_, ?_⟩
      · have h : getFileAtCommit cycStore (n + 1) "A" "main.py"
            = getFileAtCommit cycStore n "B" "main.py" := rfl
        rw [h]; exact ih.2
      · have h : getFileAtCommit cycStore (n + 1) "B" "main.py"
            = getFileAtCommit cycStore n "A" "main.py" := rfl
        rw [h]; exact ih.1

/-- Claim C3: records produced by the ingestion pipeline never carry a
`storage_type` key on any file diff, so the `incremental_update`, `patch_new`
and `patch_only` branches of `get_file_at_commit` are unreachable for them;
consequently reconstruction at a commit whose matching file diff has no
non-empty `after_code` terminates with the absent result (Python `None`),
never deriving content from the stored patch. -/
theorem C3_no_storage_type_reconstruction_absent :
    (∀ (fetch : String → String → FetchOutcome) (sha : String)
        (parentSha : Option String) (f : GHFile) (fd : FileDiffRec)
        (log : List (String × String)),
      buildFileDiff fetch sha parentSha f = .ok (fd, log) → fd.storage_type = none)
    ∧ (∀ (store : Store) (fuel : Nat) (sha fname : String) (c : CommitData)
        (fd : FileDiffRec),
      loadCommit store sha = some c →
      c.files.find? (fun d => d.filename = fname) = some fd →
      fd.storage_type = none →
      strTruthy fd.after_code = false →
      getFileAtCommit store (fuel + 1) sha fname = some none) := by
  constructor
  · intro fetch sha parentSha f fd log h
    unfold buildFileDiff getFileContent at h
    dsimp only at h
    split_ifs at h <;>
      repeat
        first
          | (cases h; rfl)
          | (split at h <;> try (cases h))
          | rfl
          | (simp_all [bind, Except.bind, pure, Except.pure, baseFileDiff])
  · intro store fuel sha fname c fd hload hfind hst hafter
    unfold getFileAtCommit
    simp only [hload, hfind, hst, hafter, Option.getD_none]
    split_ifs <;> simp_all

/-- Claim C3 witness: a concrete small-patch modified file produces a record
with no storage type and no content, and reconstruction at its commit returns
the absent result. -/
theorem C3_no_storage_type_reconstruction_absent_witness :
    buildFileDiff (fun _ _ => .ok "X") "s3" (some "p3") c3File
      = .ok (baseFileDiff c3File, [])
    ∧ (baseFileDiff c3File).storage_type = none
    ∧ loadCommit c3Store "s3" = some c3Commit
    ∧ c3Commit.files.find? (fun d => d.filename = "app.py")
        = some (baseFileDiff c3File)
    ∧ strTruthy (baseFileDiff c3File).after_code = false
    ∧ getFileAtCommit c3Store 1 "s3" "app.py" = some none :=
  ⟨rfl,
   C3_no_storage_type_reconstruction_absent.1 (fun _ _ => .ok "X") "s3"
     (some "p3") c3File (baseFileDiff c3File) [] rfl,
   by decide, by decide, by decide,
   C3_no_storage_type_reconstruction_absent.2 c3Store 0 "s3" "app.py" c3Commit
     (baseFileDiff c3File) (by decide) (by decide) (by decide) (by decide)⟩

theorem saveCommitHistory_overwrite (s : Store) (cd1 cd2 : CommitData)
    (hsha : cd1.commit_sha = cd2.commit_sha) :
    saveCommitHistory (saveCommitHistory s cd1) cd2 = saveCommitHistory s cd2 := by
  unfold saveCommitHistory
  by_cases h : ∃ c ∈ s, c.commit_sha = cd1.commit_sha
  · obtain ⟨c0, hc0, hc0s⟩ := h
    have h1 : s.any (fun c => c.commit_sha = cd1.commit_sha) = true := by
      simp only [List.any_eq_true, decide_eq_true_eq]
      exact ⟨c0, hc0, hc0s⟩
    have h2 : s.any (fun c => c.commit_sha = cd2.commit_sha) = true := by
      simp only [List.any_eq_true, decide_eq_true_eq]
      exact ⟨c0, hc0, hsha ▸ hc0s⟩
    have h3 : ((s.map (fun c => if c.commit_sha = cd1.commit_sha then cd1 else c)).any
        (fun c => c.commit_sha = cd2.commit_sha)) = true := by
      simp only [List.any_map, List.any_eq_true, decide_eq_true_eq, Function.comp]
      refine ⟨c0, hc0, ?_⟩
      simp [hc0s, hsha]
    simp only [h1, h2, h3, if_true]
    rw [List.map_map]
    apply List.map_congr_left
    intro c hc
    by_cases hcs : c.commit_sha = cd1.commit_sha
    · have hcs2 : c.commit_sha = cd2.commit_sha := hsha ▸ hcs
      simp [Function.comp, hcs, hcs2, hsha]
    · have hcs2 : ¬ c.commit_sha = cd2.commit_sha := hsha ▸ hcs
      simp [Function.comp, hcs, hcs2]
  · have h1 : s.any (fun c => c.commit_sha = cd1.commit_sha) = false := by
      simp only [List.any_eq_false, decide_eq_true_eq]
      intro c hc
      exact fun hcc => h ⟨c, hc, hcc⟩
    have h2 : s.any (fun c => c.commit_sha = cd2.commit_sha) = false := by
      simp only [List.any_eq_false, decide_eq_true_eq]
      intro c hc hcc
      exact h ⟨c, hc, hsha ▸ hcc⟩
    have h3 : (s ++ [cd1]).any (fun c => c.commit_sha = cd2.commit_sha) = true := by
      simp [List.any_eq_true, hsha]
    simp only [h1, Bool.false_eq_true, if_false]
    simp only [h2, h3, Bool.false_eq_true, if_false, if_true]
    rw [List.map_append]
    have h4 : s.map (fun c => if c.commit_sha = cd2.commit_sha then cd2 else c) = s := by
      have h5 := List.map_congr_left (l := s)
        (f := fun c => if c.commit_sha = cd2.commit_sha then cd2 else c) (g := id) ?_
      · simpa using h5
      · intro c hc
        have : ¬ c.commit_sha = cd2.commit_sha := by
          intro hcc
          exact h ⟨c, hc, hsha ▸ hcc⟩
        simp [this]
    rw [h4]
    simp [hsha]

/-- Claim C2 (amended): re-delivering a commit with identical upstream data
overwrites the stored record in place - the resulting store equals ingesting
the commit once at the re-delivery time - and the overwriting payload agrees
with the original payload in every field except the ingestion timestamp. -/
theorem C2_redelivery_idempotent_up_to_timestamp :
    (∀ (details : String → Option CommitDetail)
        (fetch : String → String → FetchOutcome) (t1 t2 : String)
        (s : Store) (pc : PushCommit),
      processCommits details fetch t2 (processCommits details fetch t1 s [pc]) [pc]
        = processCommits details fetch t2 s [pc])
    ∧ (∀ (pc : PushCommit) (t1 t2 : String) (ev : Event)
        (diffs : List FileDiffRec) (p : Option String),
      stripTimestamp (mkCommitData pc t1 ev diffs p)
        = stripTimestamp (mkCommitData pc t2 ev diffs p)) := by
  constructor
  · intro details fetch t1 t2 s pc
    by_cases hid : pc.id = ""
    · simp only [processCommits, hid, if_true]
    · simp only [processCommits, hid, if_false]
      cases h : analyzeCommit details fetch pc.id with
      | error e => rfl
      | ok v =>
          match v with
          | none => rfl
          | some (ev, diffs, p) =>
              exact saveCommitHistory_overwrite s
                (mkCommitData pc t1 ev diffs p) (mkCommitData pc t2 ev diffs p) rfl
  · intro pc t1 t2 ev diffs p
    simp [stripTimestamp, mkCommitData]

/-- Claim C2 counterexample: ingesting commit `c1` at time t1 and re-delivering
it at time t2 leaves a record with timestamp t2, a store state distinguishable
from the single-ingestion state: the record was effectively mutated, so the
re-delivered payload is not identical. -/
theorem C2_redelivery_changes_stored_record :
    (loadCommit (processCommits c2Details c2Fetch "t2"
        (processCommits c2Details c2Fetch "t1" [] [c2Push]) [c2Push]) "c1").map
          (fun c => c.timestamp) = some "t2"
    ∧ (loadCommit (processCommits c2Details c2Fetch "t1" [] [c2Push]) "c1").map
          (fun c => c.timestamp) = some "t1"
    ∧ processCommits c2Details c2Fetch "t2"
        (processCommits c2Details c2Fetch "t1" [] [c2Push]) [c2Push]
      ≠ processCommits c2Details c2Fetch "t1" [] [c2Push] := by
  have hA : (loadCommit (processCommits c2Details c2Fetch "t2"
      (processCommits c2Details c2Fetch "t1" [] [c2Push]) [c2Push]) "c1").map
        (fun c => c.timestamp) = some "t2" := rfl
  have hB : (loadCommit (processCommits c2Details c2Fetch "t1" [] [c2Push]) "c1").map
        (fun c => c.timestamp) = some "t1" := rfl
  refine ⟨hA, hB, fun heq => ?_⟩
  rw [heq, hB] at hA
  simp at hA

/-- Claim C5 (amended): full content is fetched exactly when the patch length
in characters (Python `len`, Unicode code points - equal to bytes for ASCII
patches) exceeds 800 and the status is added, modified or renamed: removed
files never fetch, renamed files fetch only the post-image at the commit
itself, and modified files fetch the pre-image at the parent and then the
post-image. -/
theorem C5_capture_threshold (fetch : String → String → FetchOutcome)
    (sha : String) (parentSha : Option String) (f : GHFile)
    (fd : FileDiffRec) (log : List (String × String))
    (hok : buildFileDiff fetch sha parentSha f = .ok (fd, log)) :
    (log ≠ [] ↔ (f.patch.length > 800
        ∧ (f.status = "added" ∨ f.status = "modified" ∨ f.status = "renamed")))
    ∧ (f.status = "removed" → log = [])
    ∧ (f.status = "renamed" → ∀ q ∈ log, q.2 = sha)
    ∧ (f.status = "modified" → f.patch.length > 800 →
        log = (match parentSha with
               | some p => [(f.filename, p), (f.filename, sha)]
               | none => [(f.filename, sha)])) := by
  unfold buildFileDiff getFileContent at hok
  dsimp only at hok
  split_ifs at hok <;>
    first
      | (cases hok; refine ⟨?_, ?_, ?_, ?_⟩ <;> simp_all)
      | (repeat' split at hok) <;>
          (try cases hok) <;>
          refine ⟨?_, ?_, ?_, ?_⟩ <;> simp_all

/-- Claim C5 counterexample: a patch of 401 two-byte characters is 802 UTF-8
bytes - beyond the claimed 800-byte boundary - yet its `len` is 401, so no
fetch is attempted; the threshold is measured in characters, not bytes. -/
theorem C5_bytes_vs_chars_cex :
    800 < eAcutePatch.utf8ByteSize
    ∧ eAcutePatch.length ≤ 800
    ∧ buildFileDiff (fun _ _ => .ok "X") "s5" none c5CexFile
        = .ok (baseFileDiff c5CexFile, []) :=
  ⟨by decide, by decide, rfl⟩

/-- Claim C5 witness: an 801-character modified patch with a parent commit
fetches the pre-image at the parent and the post-image at the commit. -/
theorem C5_capture_threshold_witness :
    buildFileDiff (fun _ _ => .ok "C") "s5" (some "p5") c5File = .ok (c5Fd, c5Log)
    ∧ (c5Log ≠ [] ↔ (c5File.patch.length > 800
        ∧ (c5File.status = "added" ∨ c5File.status = "modified"
            ∨ c5File.status = "renamed")))
    ∧ (c5File.status = "removed" → c5Log = [])
    ∧ (c5File.status = "renamed" → ∀ q ∈ c5Log, q.2 = "s5")
    ∧ (c5File.status = "modified" → c5File.patch.length > 800 →
        c5Log = [("m.py", "p5"), ("m.py", "s5")]) := by
  have hok : buildFileDiff (fun _ _ => .ok "C") "s5" (some "p5") c5File
      = .ok (c5Fd, c5Log) := rfl
  have h := C5_capture_threshold (fun _ _ => .ok "C") "s5" (some "p5") c5File
    c5Fd c5Log hok
  exact ⟨hok, h.1, h.2.1, h.2.2.1, h.2.2.2⟩

theorem getFileContent_ok (fetch : String → String → FetchOutcome)
    (hne : ∀ p r, fetch p r ≠ .exn) (path ref : String) :
    ∃ c, getFileContent fetch path ref = .ok c := by
  unfold getFileContent
  cases h : fetch path ref with
  | exn => exact absurd h (hne path ref)
  | httpError => exact ⟨"", rfl⟩
  | ok c => exact ⟨c, rfl⟩

theorem buildFileDiff_ok (fetch : String → String → FetchOutcome)
    (hne : ∀ p r, fetch p r ≠ .exn) (sha : String) (parentSha : Option String)
    (f : GHFile) : ∃ v, buildFileDiff fetch sha parentSha f = .ok v := by
  unfold buildFileDiff
  dsimp only
  obtain ⟨acs, hacs⟩ := getFileContent_ok fetch hne f.filename sha
  split_ifs <;>
    first
      | exact ⟨_, rfl⟩
      | (simp only [hacs]; exact ⟨_, rfl⟩)
      | (cases hp : parentSha with
          | none => simp only [hacs]; exact ⟨_, rfl⟩
          | some p =>
              obtain ⟨bcs, hbcs⟩ := getFileContent_ok fetch hne f.filename p
              simp only [hacs, hbcs]
              exact ⟨_, rfl⟩)

theorem buildDiffs_ok (fetch : String → String → FetchOutcome)
    (hne : ∀ p r, fetch p r ≠ .exn) (sha : String) (parentSha : Option String) :
    ∀ files, ∃ v, buildDiffs fetch sha parentSha files = .ok v := by
  intro files
  induction files with
  | nil => exact ⟨([], []), rfl⟩
  | cons f fs ih =>
      obtain ⟨⟨d, log⟩, hd⟩ := buildFileDiff_ok fetch hne sha parentSha f
      obtain ⟨⟨ds, logs⟩, hds⟩ := ih
      refine ⟨(d :: ds, log ++ logs), ?_⟩
      simp only [buildDiffs, hd, hds]
      rfl

/-- Claim C9 (amended): when no fetch raises a transport exception,
`analyze_commit` always succeeds and produces a record (an HTTP-error response
degrades to empty content on that file diff); a transport exception aborts
only that one commit - the webhook loop catches it and continues the batch. -/
theorem C9_fetch_failure_handling :
    (∀ (details : String → Option CommitDetail)
        (fetch : String → String → FetchOutcome) (sha : String),
      (∀ p r, fetch p r ≠ .exn) → ∃ v, analyzeCommit details fetch sha = .ok v)
    ∧ (∀ (details : String → Option CommitDetail)
        (fetch : String → String → FetchOutcome) (now : String) (store : Store)
        (pc : PushCommit) (rest : List PushCommit),
      analyzeCommit details fetch pc.id = .error () →
      processCommits details fetch now store (pc :: rest)
        = processCommits details fetch now store rest)
    ∧ (∀ (fetch : String → String → FetchOutcome) (sha : String) (f : GHFile),
      fetch f.filename sha = .httpError → f.status = "added" →
      f.patch.length > 800 →
      buildFileDiff fetch sha none f
        = .ok ({ baseFileDiff f with after_code := some "" }, [(f.filename, sha)])) := by
  refine ⟨?_, ?_, ?_⟩
  · intro details fetch sha hne
    unfold analyzeCommit
    cases hd : details sha with
    | none => exact ⟨none, rfl⟩
    | some commit =>
        obtain ⟨⟨ds, logs⟩, hds⟩ := buildDiffs_ok fetch hne sha commit.parents.head? commit.files
        simp only [hds]
        exact ⟨_, rfl⟩
  · intro details fetch now store pc rest herr
    by_cases hid : pc.id = ""
    · simp only [processCommits, hid, if_true]
    · simp only [processCommits, hid, if_false, herr]
  · intro fetch sha f hfe hst hlen
    unfold buildFileDiff getFileContent
    dsimp only
    split_ifs <;>
      first
        | (rw [hfe]; rfl)
        | simp_all

/-- Claim C9 counterexample: a transport exception during a content fetch
propagates out of `analyze_commit`, so the commit's record is never written -
refuting that a fetch failure never aborts the commit - while the rest of the
batch is still processed. -/
theorem C9_transport_exception_aborts_commit_cex :
    analyzeCommit c9Details c9Fetch "c9" = .error ()
    ∧ loadCommit (processCommits c9Details c9Fetch "t" [] [c9Push, cAPush]) "c9"
        = none
    ∧ (loadCommit (processCommits c9Details c9Fetch "t" [] [c9Push, cAPush]) "cA").isSome
        = true :=
  ⟨rfl, rfl, rfl⟩

/-- Claim C9 witness: with a never-raising fetch the large commit analyzes
successfully; the exception-raising batch skips only the failing commit; an
HTTP-error fetch stores empty content and still produces the record. -/
theorem C9_fetch_failure_handling_witness :
    (∃ v, analyzeCommit c9Details c9OkFetch "c9" = .ok v)
    ∧ processCommits c9Details c9Fetch "t" [] [c9Push]
        = processCommits c9Details c9Fetch "t" [] []
    ∧ buildFileDiff c9HttpFetch "s9" none c9AddFile
        = .ok ({ baseFileDiff c9AddFile with after_code := some "" },
               [("a.py", "s9")]) :=
  ⟨C9_fetch_failure_handling.1 c9Details c9OkFetch "c9" (fun p r h => nomatch h),
   C9_fetch_failure_handling.2.1 c9Details c9Fetch "t" [] c9Push [] rfl,
   C9_fetch_failure_handling.2.2 c9HttpFetch "s9" c9AddFile rfl rfl (by decide)⟩

theorem flmInner_bnd (i alo ahi blo bhi : Nat) (hi1 : alo ≤ i) (hi2 : i < ahi)
    (g : Nat → Nat) (hg : RowBnd blo bhi (i - alo) g) :
    ∀ (L : List Nat) (acc : Nat → Nat) (best : FLM),
      RowBnd blo bhi (i + 1 - alo) acc →
      BestBnd alo ahi blo bhi best →
      RowBnd blo bhi (i + 1 - alo) (flmInner i blo bhi g L acc best).1
      ∧ BestBnd alo ahi blo bhi (flmInner i blo bhi g L acc best).2 := by
  intro L
  induction L with
  | nil =>
      intro acc best hacc hbest
      exact ⟨hacc, hbest⟩
  | cons j rest ih =>
      intro acc best hacc hbest
      by_cases hjblo : j < blo
      · have hstep : flmInner i blo bhi g (j :: rest) acc best
            = flmInner i blo bhi g rest acc best := by
          conv_lhs => unfold flmInner
          rw [if_pos hjblo]
        rw [hstep]
        exact ih acc best hacc hbest
      · by_cases hjbhi : bhi ≤ j
        · have hstep : flmInner i blo bhi g (j :: rest) acc best = (acc, best) := by
            conv_lhs => unfold flmInner
            rw [if_neg hjblo, if_pos hjbhi]
          rw [hstep]
          exact ⟨hacc, hbest⟩
        · have hstep : flmInner i blo bhi g (j :: rest) acc best
              = flmInner i blo bhi g rest
                  (fun j2 => if j2 = j then (if j = 0 then 0 else g (j - 1)) + 1
                    else acc j2)
                  (if (if j = 0 then 0 else g (j - 1)) + 1 > best.bestsize then
                     ⟨i + 1 - ((if j = 0 then 0 else g (j - 1)) + 1),
                      j + 1 - ((if j = 0 then 0 else g (j - 1)) + 1),
                      (if j = 0 then 0 else g (j - 1)) + 1⟩
                   else best) := by
            conv_lhs => unfold flmInner
            rw [if_neg hjblo, if_neg hjbhi]
          rw [hstep]
          set kv := (if j = 0 then 0 else g (j - 1)) + 1 with hkv
          have hk1 : kv ≤ i + 1 - alo := by
            rw [hkv]
            by_cases hj0 : j = 0
            · rw [if_pos hj0]
              omega
            · rw [if_neg hj0]
              have := (hg (j - 1)).1
              omega
          have hk2 : kv ≤ j + 1 - blo := by
            rw [hkv]
            by_cases hj0 : j = 0
            · rw [if_pos hj0]
              omega
            · rw [if_neg hj0]
              rcases Nat.eq_zero_or_pos (g (j - 1)) with hz | hpos
              · rw [hz]
                omega
              · have ha := ((hg (j - 1)).2 hpos).2.2
                have hb2 := ((hg (j - 1)).2 hpos).1
                omega
          apply ih
          · intro j2
            dsimp only
            by_cases hj2 : j2 = j
            · subst hj2
              simp only [if_pos rfl]
              exact ⟨hk1, fun _ => ⟨by omega, by omega, hk2⟩⟩
            · simp only [if_neg hj2]
              exact hacc j2
          · split_ifs with hkb
            · unfold BestBnd
              dsimp only
              omega
            · exact hbest

theorem flmOuter_bnd (a : List Char) (bj : Char → List Nat)
    (alo ahi blo bhi : Nat) :
    ∀ (cnt start : Nat), alo ≤ start → start + cnt ≤ ahi →
      ∀ (g : Nat → Nat) (best : FLM),
        RowBnd blo bhi (start - alo) g →
        BestBnd alo ahi blo bhi best →
        BestBnd alo ahi blo bhi
          (flmOuter a bj blo bhi (List.range' start cnt) g best) := by
  intro cnt
  induction cnt with
  | zero =>
      intro start h1 h2 g best hg hbest
      simpa [flmOuter] using hbest
  | succ n ih =>
      intro start h1 h2 g best hg hbest
      rw [List.range'_succ]
      unfold flmOuter
      have hzero : RowBnd blo bhi (start + 1 - alo) (fun _ => 0) := by
        intro j
        refine ⟨Nat.zero_le _, fun h => absurd h (by simp)⟩
      have hstep := flmInner_bnd start alo ahi blo bhi h1 (by omega) g hg
        (bj (a.getD start ' ')) (fun _ => 0) best hzero hbest
      have hrow : RowBnd blo bhi (start + 1 - alo)
          (flmInner start blo bhi g (bj (a.getD start ' ')) (fun _ => 0) best).1 :=
        hstep.1
      have := ih (start + 1) (by omega) (by omega)
        (flmInner start blo bhi g (bj (a.getD start ' ')) (fun _ => 0) best).1
        (flmInner start blo bhi g (bj (a.getD start ' ')) (fun _ => 0) best).2
        (by simpa using hrow) hstep.2
      simpa using this

theorem extendFront_bnd (a b : List Char) (alo blo ahi bhi : Nat) :
    ∀ (bi bj k : Nat), alo ≤ bi → blo ≤ bj → bi + k ≤ ahi → bj + k ≤ bhi →
      alo ≤ (extendFront a b alo blo bi bj k).1
      ∧ blo ≤ (extendFront a b alo blo bi bj k).2.1
      ∧ (extendFront a b alo blo bi bj k).1
          + (extendFront a b alo blo bi bj k).2.2 ≤ ahi
      ∧ (extendFront a b alo blo bi bj k).2.1
          + (extendFront a b alo blo bi bj k).2.2 ≤ bhi := by
  intro bi
  induction bi with
  | zero =>
      intro bj k h1 h2 h3 h4
      unfold extendFront
      refine ⟨?_, ?_, ?_, ?_⟩ <;> dsimp only <;> omega
  | succ n ih =>
      intro bj k h1 h2 h3 h4
      unfold extendFront
      split_ifs with hc
      · exact ih (bj - 1) (k + 1) (by omega) (by omega) (by omega) (by omega)
      · refine ⟨?_, ?_, ?_, ?_⟩ <;> dsimp only <;> omega

theorem extendBack_le (a b : List Char) (ahi bhi bi bj : Nat) :
    ∀ (fuel k : Nat), bi + k ≤ ahi → bj + k ≤ bhi →
      bi + extendBack a b ahi bhi bi bj fuel k ≤ ahi
      ∧ bj + extendBack a b ahi bhi bi bj fuel k ≤ bhi := by
  intro fuel
  induction fuel with
  | zero =>
      intro k h1 h2
      unfold extendBack
      exact ⟨h1, h2⟩
  | succ n ih =>
      intro k h1 h2
      unfold extendBack
      split_ifs with hc
      · exact ih (k + 1) (by omega) (by omega)
      · exact ⟨h1, h2⟩

theorem findLongestMatch_bnd (a b : List Char) (bj : Char → List Nat)
    (alo ahi blo bhi : Nat) (h1 : alo ≤ ahi) (h2 : blo ≤ bhi) :
    alo ≤ (findLongestMatch a b bj alo ahi blo bhi).1
    ∧ blo ≤ (findLongestMatch a b bj alo ahi blo bhi).2.1
    ∧ (findLongestMatch a b bj alo ahi blo bhi).1
        + (findLongestMatch a b bj alo ahi blo bhi).2.2 ≤ ahi
    ∧ (findLongestMatch a b bj alo ahi blo bhi).2.1
        + (findLongestMatch a b bj alo ahi blo bhi).2.2 ≤ bhi := by
  unfold findLongestMatch
  have hinit : RowBnd blo bhi (alo - alo) (fun _ => 0) := by
    intro j
    refine ⟨Nat.zero_le _, fun h => absurd h (by simp)⟩
  have hbest0 : BestBnd alo ahi blo bhi ⟨alo, blo, 0⟩ := by
    unfold BestBnd
    dsimp only
    omega
  have houter := flmOuter_bnd a bj alo ahi blo bhi (ahi - alo) alo le_rfl
    (by omega) (fun _ => 0) ⟨alo, blo, 0⟩ hinit hbest0
  set best := flmOuter a bj blo bhi (List.range' alo (ahi - alo)) (fun _ => 0)
    ⟨alo, blo, 0⟩ with hbdef
  obtain ⟨hb1, hb2, hb3, hb4⟩ := houter
  have hfront := extendFront_bnd a b alo blo ahi bhi best.besti best.bestj
    best.bestsize hb1 hb2 hb3 hb4
  set f := extendFront a b alo blo best.besti best.bestj best.bestsize with hfdef
  obtain ⟨hf1, hf2, hf3, hf4⟩ := hfront
  have hback := extendBack_le a b ahi bhi f.1 f.2.1 ahi f.2.2 hf3 hf4
  exact ⟨hf1, hf2, hback.1, hback.2⟩

theorem matchSumFuel_le (a b : List Char) (bj : Char → List Nat) :
    ∀ (fuel alo ahi blo bhi : Nat), alo ≤ ahi → blo ≤ bhi →
      matchSumFuel a b bj fuel alo ahi blo bhi ≤ ahi - alo
      ∧ matchSumFuel a b bj fuel alo ahi blo bhi ≤ bhi - blo := by
  intro fuel
  induction fuel with
  | zero =>
      intro alo ahi blo bhi h1 h2
      unfold matchSumFuel
      exact ⟨by omega, by omega⟩
  | succ n ih =>
      intro alo ahi blo bhi h1 h2
      have hb := findLongestMatch_bnd a b bj alo ahi blo bhi h1 h2
      unfold matchSumFuel
      dsimp only
      set m := findLongestMatch a b bj alo ahi blo bhi with hmdef
      obtain ⟨hm1, hm2, hm3, hm4⟩ := hb
      by_cases hk : m.2.2 = 0
      · simp only [if_pos hk]
        exact ⟨by omega, by omega⟩
      · simp only [if_neg hk]
        have hL : (if alo < m.1 ∧ blo < m.2.1 then
            matchSumFuel a b bj n alo m.1 blo m.2.1 else 0) ≤ m.1 - alo
            ∧ (if alo < m.1 ∧ blo < m.2.1 then
            matchSumFuel a b bj n alo m.1 blo m.2.1 else 0) ≤ m.2.1 - blo := by
          by_cases hc : alo < m.1 ∧ blo < m.2.1
          · simp only [if_pos hc]
            exact ih alo m.1 blo m.2.1 (by omega) (by omega)
          · simp only [if_neg hc]
            exact ⟨by omega, by omega⟩
        have hR : (if m.1 + m.2.2 < ahi ∧ m.2.1 + m.2.2 < bhi then
            matchSumFuel a b bj n (m.1 + m.2.2) ahi (m.2.1 + m.2.2) bhi else 0)
              ≤ ahi - (m.1 + m.2.2)
            ∧ (if m.1 + m.2.2 < ahi ∧ m.2.1 + m.2.2 < bhi then
            matchSumFuel a b bj n (m.1 + m.2.2) ahi (m.2.1 + m.2.2) bhi else 0)
              ≤ bhi - (m.2.1 + m.2.2) := by
          by_cases hc : m.1 + m.2.2 < ahi ∧ m.2.1 + m.2.2 < bhi
          · simp only [if_pos hc]
            exact ih (m.1 + m.2.2) ahi (m.2.1 + m.2.2) bhi (by omega) (by omega)
          · simp only [if_neg hc]
            exact ⟨by omega, by omega⟩
        exact ⟨by omega, by omega⟩

theorem seqRatio_nonneg (x y : String) : 0 ≤ seqRatio x y := by
  unfold seqRatio calculateRatio
  dsimp only
  split_ifs with h
  · positivity
  · norm_num

theorem seqRatio_le_one (x y : String) : seqRatio x y ≤ 1 := by
  unfold seqRatio calculateRatio
  dsimp only
  split_ifs with h
  · have hm := matchSumFuel_le x.data y.data (b2jList y.data)
      (x.data.length + y.data.length + 1) 0 x.data.length 0 y.data.length
      (by omega) (by omega)
    rw [div_le_one (by positivity)]
    have h2 : 2 * matchSumFuel x.data y.data (b2jList y.data)
        (x.data.length + y.data.length + 1) 0 x.data.length 0 y.data.length
        ≤ x.data.length + y.data.length := by omega
    exact_mod_cast h2
  · norm_num

theorem semChain_le (a : List Char) : ∀ i j, semChain a i j ≤ i + 1 := by
  intro i
  induction i with
  | zero =>
      intro j
      unfold semChain
      split_ifs <;> omega
  | succ n ih =>
      intro j
      unfold semChain
      split_ifs with hc
      · match j with
        | 0 => dsimp only; omega
        | j' + 1 =>
            dsimp only
            have := ih j'
            omega
      · omega

theorem chainCond_symm (a : List Char) (i j : Nat) :
    chainCond a i j ↔ chainCond a j i := by
  unfold chainCond
  constructor
  · rintro ⟨h1, h2, h3, h4⟩
    exact ⟨h2, h1, h3.symm, h3 ▸ h4⟩
  · rintro ⟨h1, h2, h3, h4⟩
    exact ⟨h2, h1, h3.symm, h3 ▸ h4⟩

theorem semChain_zero (a : List Char) (i j : Nat) (h : ¬ chainCond a i j) :
    semChain a i j = 0 := by
  match i with
  | 0 =>
      unfold semChain
      rw [if_neg h]
  | i' + 1 =>
      unfold semChain
      rw [if_neg h]

theorem semChain_one (a : List Char) (i : Nat) (h : chainCond a i 0) :
    semChain a i 0 = 1 := by
  match i with
  | 0 =>
      unfold semChain
      rw [if_pos h]
  | i' + 1 =>
      unfold semChain
      rw [if_pos h]

theorem semChain_symm (a : List Char) : ∀ i j, semChain a i j = semChain a j i := by
  intro i
  induction i with
  | zero =>
      intro j
      match j with
      | 0 => rfl
      | j' + 1 =>
          by_cases h : chainCond a 0 (j' + 1)
          · have h2 := (chainCond_symm a 0 (j' + 1)).mp h
            unfold semChain
            rw [if_pos h, if_pos h2]
          · have h2 : ¬ chainCond a (j' + 1) 0 :=
              fun hc => h ((chainCond_symm a (j' + 1) 0).mp hc)
            unfold semChain
            rw [if_neg h, if_neg h2]
  | succ n ih =>
      intro j
      match j with
      | 0 =>
          by_cases h : chainCond a (n + 1) 0
          · have h2 := (chainCond_symm a (n + 1) 0).mp h
            unfold semChain
            rw [if_pos h, if_pos h2]
          · have h2 : ¬ chainCond a 0 (n + 1) :=
              fun hc => h ((chainCond_symm a 0 (n + 1)).mp hc)
            unfold semChain
            rw [if_neg h, if_neg h2]
      | j' + 1 =>
          by_cases h : chainCond a (n + 1) (j' + 1)
          · have h2 := (chainCond_symm a (n + 1) (j' + 1)).mp h
            unfold semChain
            rw [if_pos h, if_pos h2]
            dsimp only
            rw [ih j']
          · have h2 : ¬ chainCond a (j' + 1) (n + 1) :=
              fun hc => h ((chainCond_symm a (j' + 1) (n + 1)).mp hc)
            unfold semChain
            rw [if_neg h, if_neg h2]

theorem semChain_diagdom (a : List Char) : ∀ i j, semChain a i j ≤ semChain a i i := by
  intro i
  induction i with
  | zero =>
      intro j
      by_cases h : chainCond a 0 j
      · have hd : chainCond a 0 0 := ⟨h.1, h.1, rfl, h.2.2.2⟩
        unfold semChain
        rw [if_pos h, if_pos hd]
      · rw [semChain_zero a 0 j h]
        omega
  | succ n ih =>
      intro j
      by_cases h : chainCond a (n + 1) j
      · have hd : chainCond a (n + 1) (n + 1) := ⟨h.1, h.1, rfl, h.2.2.2⟩
        unfold semChain
        rw [if_pos h, if_pos hd]
        dsimp only
        match j with
        | 0 => dsimp only; omega
        | j' + 1 =>
            dsimp only
            have := ih j'
            omega
      · rw [semChain_zero a (n + 1) j h]
        omega

theorem get?_getD_of_lt (l : List Char) (j : Nat) (h : j < l.length) :
    l.get? j = some (l.getD j ' ') := by
  simp [List.getD_eq_getElem?_getD, List.get?_eq_getElem?]
  cases hx : l[j]? with
  | none => simp [List.getElem?_eq_none_iff] at hx; omega
  | some x => simp [hx]

theorem mem_b2jList_iff (a : List Char) (i j : Nat) (hi : i < a.length) :
    j ∈ b2jList a (a.getD i ' ') ↔ chainCond a i j := by
  unfold b2jList charPositions
  split_ifs with hpop
  · simp only [List.not_mem_nil, false_iff]
    rintro ⟨h1, h2, h3, h4⟩
    rw [h4] at hpop
    exact Bool.noConfusion hpop
  · simp only [List.mem_filter, List.mem_range, decide_eq_true_eq]
    constructor
    · rintro ⟨hjn, hget⟩
      have hg : a.getD j ' ' = a.getD i ' ' := by
        rw [get?_getD_of_lt a j hjn] at hget
        exact Option.some.injEq _ _ ▸ hget
      refine ⟨hi, hjn, hg, ?_⟩
      cases hb : isPopularChar a (a.getD i ' ') with
      | false => rfl
      | true => exact absurd hb hpop
    · rintro ⟨h1, h2, h3, h4⟩
      refine ⟨h2, ?_⟩
      rw [get?_getD_of_lt a j h2, h3]

theorem b2jList_sorted (a : List Char) (c : Char) :
    (b2jList a c).Pairwise (· < ·) := by
  unfold b2jList charPositions
  split_ifs
  · exact List.Pairwise.nil
  · exact (List.pairwise_lt_range _).filter _

theorem semChain_succ (a : List Char) (i' j' : Nat)
    (h : chainCond a (i' + 1) (j' + 1)) :
    semChain a (i' + 1) (j' + 1) = semChain a i' j' + 1 := by
  conv_lhs => unfold semChain
  rw [if_pos h]

theorem flmInner_id (a : List Char) (i : Nat) (hi : i < a.length)
    (g : Nat → Nat) (hg : ∀ j, g j = rowBelow a i j) :
    ∀ (L : List Nat) (acc : Nat → Nat) (best : FLM),
      L.Pairwise (· < ·) →
      (∀ x ∈ L, x ∈ b2jList a (a.getD i ' ')) →
      (∀ x, x ∈ b2jList a (a.getD i ' ') → x ∉ L →
        semChain a i x ≤ best.bestsize) →
      (∀ j, acc j = if chainCond a i j ∧ j ∉ L then semChain a i j else 0) →
      best.besti = best.bestj →
      best.besti + best.bestsize ≤ a.length →
      (∀ i2 j, i2 < i → semChain a i2 j ≤ best.bestsize) →
      ((∀ j, (flmInner i 0 a.length g L acc best).1 j = semChain a i j)
       ∧ (flmInner i 0 a.length g L acc best).2.besti
           = (flmInner i 0 a.length g L acc best).2.bestj
       ∧ (flmInner i 0 a.length g L acc best).2.besti
           + (flmInner i 0 a.length g L acc best).2.bestsize ≤ a.length
       ∧ (∀ i2 j, i2 ≤ i →
           semChain a i2 j ≤ (flmInner i 0 a.length g L acc best).2.bestsize)) := by
  intro L
  induction L with
  | nil =>
      intro acc best hsort hsub hproc hacc hdiag hbnd hrows
      refine ⟨?_, hdiag, hbnd, ?_⟩
      · intro j
        show acc j = semChain a i j
        rw [hacc j]
        by_cases hc : chainCond a i j
        · simp [hc]
        · simp [hc, semChain_zero a i j hc]
      · intro i2 j hi2
        rcases Nat.lt_or_ge i2 i with h | h
        · exact hrows i2 j h
        · have hii : i2 = i := by omega
          subst hii
          by_cases hc : chainCond a i2 j
          · exact hproc j ((mem_b2jList_iff a i2 j hi).mpr hc) (List.not_mem_nil j)
          · rw [semChain_zero a i2 j hc]
            omega
  | cons j0 L' ih =>
      intro acc best hsort hsub hproc hacc hdiag hbnd hrows
      have hmem : j0 ∈ b2jList a (a.getD i ' ') := hsub j0 (List.mem_cons_self j0 L')
      have hcnd : chainCond a i j0 := (mem_b2jList_iff a i j0 hi).mp hmem
      have hsort' : L'.Pairwise (· < ·) := (List.pairwise_cons.mp hsort).2
      have hj0lt : ∀ x ∈ L', j0 < x := (List.pairwise_cons.mp hsort).1
      have hj0notL : j0 ∉ L' := fun hmem2 => absurd (hj0lt j0 hmem2) (lt_irrefl j0)
      have hkval : (if j0 = 0 then 0 else g (j0 - 1)) + 1 = semChain a i j0 := by
        by_cases hj0 : j0 = 0
        · subst hj0
          rw [if_pos rfl, semChain_one a i hcnd]
        · rw [if_neg hj0, hg (j0 - 1)]
          obtain ⟨j', rfl⟩ : ∃ j', j0 = j' + 1 := ⟨j0 - 1, by omega⟩
          simp only [Nat.add_sub_cancel]
          cases i with
          | zero =>
              unfold rowBelow semChain
              rw [if_pos hcnd]
          | succ i' =>
              unfold rowBelow
              rw [semChain_succ a i' j' hcnd]
      have hstep : flmInner i 0 a.length g (j0 :: L') acc best
          = flmInner i 0 a.length g L'
              (fun j2 => if j2 = j0 then semChain a i j0 else acc j2)
              (if semChain a i j0 > best.bestsize then
                 ⟨i + 1 - semChain a i j0, j0 + 1 - semChain a i j0,
                  semChain a i j0⟩
               else best) := by
        conv_lhs => unfold flmInner
        rw [if_neg (by omega : ¬ j0 < 0),
          if_neg (by push_neg; exact hcnd.2.1 : ¬ a.length ≤ j0)]
        dsimp only
        rw [hkval]
      rw [hstep]
      have haccstep : ∀ (j2 : Nat),
          (fun j2 => if j2 = j0 then semChain a i j0 else acc j2) j2
            = if chainCond a i j2 ∧ j2 ∉ L' then semChain a i j2 else 0 := by
        intro j2
        dsimp only
        by_cases hj2 : j2 = j0
        · subst hj2
          rw [if_pos rfl, if_pos ⟨hcnd, hj0notL⟩]
        · rw [if_neg hj2, hacc j2]
          by_cases hc2 : chainCond a i j2 ∧ j2 ∉ L'
          · rw [if_pos ⟨hc2.1, by simp [List.mem_cons, hj2, hc2.2]⟩, if_pos hc2]
          · rw [if_neg ?hneg, if_neg hc2]
            case hneg =>
              rintro ⟨hc3, hnotc⟩
              exact hc2 ⟨hc3, fun hmem3 => hnotc (List.mem_cons_of_mem j0 hmem3)⟩
      rcases Nat.lt_trichotomy j0 i with hlt | heq | hgt
      · have hle : semChain a i j0 ≤ best.bestsize := by
          calc semChain a i j0 = semChain a j0 i := semChain_symm a i j0
            _ ≤ semChain a j0 j0 := semChain_diagdom a j0 i
            _ ≤ best.bestsize := hrows j0 j0 hlt
        rw [if_neg (by omega)]
        apply ih _ best hsort'
          (fun x hx => hsub x (List.mem_cons_of_mem j0 hx))
          ?proc haccstep hdiag hbnd hrows
        case proc =>
          intro x hx hxL
          by_cases hxj : x = j0
          · subst hxj
            exact hle
          · exact hproc x hx (by simp [List.mem_cons, hxj, hxL])
      · subst heq
        by_cases hup : semChain a j0 j0 > best.bestsize
        · rw [if_pos hup]
          have hsle := semChain_le a j0 j0
          apply ih _ _ hsort'
            (fun x hx => hsub x (List.mem_cons_of_mem j0 hx))
            ?proc2 haccstep rfl (by dsimp only; omega) ?rows2
          case proc2 =>
            intro x hx hxL
            by_cases hxj : x = j0
            · subst hxj
              exact le_rfl
            · have := hproc x hx (by simp [List.mem_cons, hxj, hxL])
              dsimp only
              omega
          case rows2 =>
            intro i2 j hi2
            have := hrows i2 j hi2
            dsimp only
            omega
        · rw [if_neg hup]
          apply ih _ best hsort'
            (fun x hx => hsub x (List.mem_cons_of_mem j0 hx))
            ?proc3 haccstep hdiag hbnd hrows
          case proc3 =>
            intro x hx hxL
            by_cases hxj : x = j0
            · subst hxj
              omega
            · exact hproc x hx (by simp [List.mem_cons, hxj, hxL])
      · have hmi : i ∈ b2jList a (a.getD i ' ') :=
          (mem_b2jList_iff a i i hi).mpr ⟨hi, hi, rfl, hcnd.2.2.2⟩
        have hinotL : i ∉ j0 :: L' := by
          intro hmem2
          rcases List.mem_cons.mp hmem2 with h | h
          · omega
          · exact absurd (hj0lt i h) (by omega)
        have hle : semChain a i j0 ≤ best.bestsize := by
          calc semChain a i j0 ≤ semChain a i i := semChain_diagdom a i j0
            _ ≤ best.bestsize := hproc i hmi hinotL
        rw [if_neg (by omega)]
        apply ih _ best hsort'
          (fun x hx => hsub x (List.mem_cons_of_mem j0 hx))
          ?proc4 haccstep hdiag hbnd hrows
        case proc4 =>
          intro x hx hxL
          by_cases hxj : x = j0
          · subst hxj
            exact hle
          · exact hproc x hx (by simp [List.mem_cons, hxj, hxL])

theorem flmOuter_id (a : List Char) :
    ∀ (cnt start : Nat), start + cnt = a.length →
      ∀ (g : Nat → Nat) (best : FLM),
        (∀ j, g j = rowBelow a start j) →
        best.besti = best.bestj →
        best.besti + best.bestsize ≤ a.length →
        (∀ i2 j, i2 < start → semChain a i2 j ≤ best.bestsize) →
        ((flmOuter a (b2jList a) 0 a.length (List.range' start cnt) g best).besti
           = (flmOuter a (b2jList a) 0 a.length (List.range' start cnt) g best).bestj
         ∧ (flmOuter a (b2jList a) 0 a.length (List.range' start cnt) g best).besti
             + (flmOuter a (b2jList a) 0 a.length
                 (List.range' start cnt) g best).bestsize ≤ a.length) := by
  intro cnt
  induction cnt with
  | zero =>
      intro start hsum g best hg hdiag hbnd hrows
      exact ⟨hdiag, hbnd⟩
  | succ n ih =>
      intro start hsum g best hg hdiag hbnd hrows
      rw [List.range'_succ]
      have hstart : start < a.length := by omega
      have hinner := flmInner_id a start hstart g hg
        (b2jList a (a.getD start ' '))
        (fun _ => 0) best (b2jList_sorted a (a.getD start ' '))
        (fun x hx => hx) ?proc ?acc hdiag hbnd hrows
      case proc =>
        intro x hx hxn
        exact absurd hx hxn
      case acc =>
        intro j
        by_cases hc : chainCond a start j ∧ j ∉ b2jList a (a.getD start ' ')
        · exact absurd ((mem_b2jList_iff a start j hstart).mpr hc.1) hc.2
        · rw [if_neg hc]
      have hstep : flmOuter a (b2jList a) 0 a.length
            (start :: List.range' (start + 1) n) g best
          = flmOuter a (b2jList a) 0 a.length (List.range' (start + 1) n)
              (flmInner start 0 a.length g
                (b2jList a (a.getD start ' ')) (fun _ => 0) best).1
              (flmInner start 0 a.length g
                (b2jList a (a.getD start ' ')) (fun _ => 0) best).2 := by
        conv_lhs => unfold flmOuter
      rw [hstep]
      exact ih (start + 1) (by omega) _ _
        (fun j => by rw [hinner.1 j]; rfl)
        hinner.2.1 hinner.2.2.1
        (fun i2 j hi2 => by
          rcases Nat.lt_or_ge i2 start with h | h
          · exact hinner.2.2.2 i2 j (by omega)
          · have : i2 = start := by omega
            subst this
            exact hinner.2.2.2 i2 j le_rfl)

theorem extendFront_diag (a : List Char) :
    ∀ (d s : Nat), extendFront a a 0 0 d d s = (0, 0, s + d) := by
  intro d
  induction d with
  | zero =>
      intro s
      unfold extendFront
      rw [Nat.add_zero]
  | succ n ih =>
      intro s
      unfold extendFront
      rw [if_pos ⟨by omega, by omega, rfl⟩]
      have h2 : n + 1 - 1 = n := by omega
      rw [h2, ih (s + 1)]
      have h3 : s + 1 + n = s + (n + 1) := by omega
      rw [h3]

theorem extendBack_diag (a : List Char) :
    ∀ (fuel s : Nat), s ≤ a.length → a.length ≤ s + fuel →
      extendBack a a a.length a.length 0 0 fuel s = a.length := by
  intro fuel
  induction fuel with
  | zero =>
      intro s h1 h2
      unfold extendBack
      omega
  | succ n ih =>
      intro s h1 h2
      unfold extendBack
      by_cases hs : s < a.length
      · rw [if_pos ⟨by omega, by omega, rfl⟩]
        exact ih (s + 1) (by omega) (by omega)
      · rw [if_neg (by push_neg; intro hc; omega)]
        omega

theorem findLongestMatch_self (a : List Char) :
    findLongestMatch a a (b2jList a) 0 a.length 0 a.length
      = (0, 0, a.length) := by
  unfold findLongestMatch
  dsimp only
  have houter := flmOuter_id a (a.length - 0) 0 (by omega) (fun _ => 0)
    ⟨0, 0, 0⟩ (fun j => rfl) rfl (by dsimp only; omega)
    (fun i2 j hi2 => by omega)
  set best := flmOuter a (b2jList a) 0 a.length (List.range' 0 (a.length - 0))
    (fun _ => 0) ⟨0, 0, 0⟩ with hbdef
  obtain ⟨hdiag, hbnd⟩ := houter
  have hfront : extendFront a a 0 0 best.besti best.bestj best.bestsize
      = (0, 0, best.bestsize + best.besti) := by
    rw [← hdiag]
    exact extendFront_diag a best.besti best.bestsize
  rw [hfront]
  dsimp only
  rw [extendBack_diag a a.length (best.bestsize + best.besti) (by omega)
    (by omega)]

theorem matchSumFuel_self (a : List Char) (fuel : Nat) (hf : 1 ≤ fuel) :
    matchSumFuel a a (b2jList a) fuel 0 a.length 0 a.length = a.length := by
  match fuel, hf with
  | f + 1, _ =>
    unfold matchSumFuel
    dsimp only
    rw [findLongestMatch_self]
    dsimp only
    by_cases hn : a.length = 0
    · rw [if_pos hn, hn]
    · rw [if_neg hn, if_neg (by omega : ¬ (0 < 0 ∧ 0 < 0)),
        if_neg (by omega : ¬ (0 + a.length < a.length
          ∧ 0 + a.length < a.length))]
      omega

theorem seqRatio_self (s : String) : seqRatio s s = 1 := by
  unfold seqRatio
  dsimp only
  rw [matchSumFuel_self s.data (s.data.length + s.data.length + 1) (by omega)]
  unfold calculateRatio
  by_cases hn : s.data.length + s.data.length = 0
  · rw [if_neg (by omega)]
  · rw [if_pos (by omega)]
    have hq : ((s.data.length + s.data.length : Nat) : ℚ)
        = 2 * (s.data.length : ℚ) := by
      push_cast
      ring
    rw [hq]
    have hl : (s.data.length : ℚ) ≠ 0 := by
      have h2 : s.data.length ≠ 0 := by omega
      exact_mod_cast h2
    rw [div_eq_one_iff_eq (mul_ne_zero two_ne_zero hl)]

/-- Claim C7: on a modified file diff with both contents available,
`analyze_code_similarity` returns exactly the section 4.5 mapping applied to
the character and logic similarity ratios, and both ratios are normalized to
the interval from 0 to 1 and equal 1 for identical strings. -/
theorem C7_similarity_mapping (fd : FileDiffRec)
    (hst : fd.status = "modified")
    (hb : strTruthy fd.before_code = true)
    (ha : strTruthy fd.after_code = true) :
    (analyzeCodeSimilarity fd).type = specSimMap (charSimOf fd) (logicSimOf fd)
    ∧ 0 ≤ charSimOf fd ∧ charSimOf fd ≤ 1
    ∧ 0 ≤ logicSimOf fd ∧ logicSimOf fd ≤ 1
    ∧ (fd.before_code = fd.after_code → charSimOf fd = 1) := by
  refine ⟨?_, seqRatio_nonneg _ _, seqRatio_le_one _ _,
    seqRatio_nonneg _ _, seqRatio_le_one _ _, ?_⟩
  · unfold analyzeCodeSimilarity specSimMap
    rw [if_neg (by rw [hst]; decide), if_neg (by rw [hst]; decide),
      if_pos ⟨hb, ha⟩]
    dsimp only
    split_ifs <;> rfl
  · intro heq
    unfold charSimOf
    rw [heq]
    exact seqRatio_self _

/-- Claim C7 witness: a modified diff with identical two-character contents
satisfies the mapping, and its character similarity is exactly 1. -/
theorem C7_similarity_mapping_witness :
    c7Fd.status = "modified"
    ∧ strTruthy c7Fd.before_code = true
    ∧ strTruthy c7Fd.after_code = true
    ∧ ((analyzeCodeSimilarity c7Fd).type
          = specSimMap (charSimOf c7Fd) (logicSimOf c7Fd)
       ∧ 0 ≤ charSimOf c7Fd ∧ charSimOf c7Fd ≤ 1
       ∧ 0 ≤ logicSimOf c7Fd ∧ logicSimOf c7Fd ≤ 1
       ∧ (c7Fd.before_code = c7Fd.after_code → charSimOf c7Fd = 1)) :=
  ⟨rfl, rfl, rfl, C7_similarity_mapping c7Fd rfl rfl rfl⟩

/-- Claim C6 (amended): a modified diff whose before and after contents agree
after removing all whitespace is classified `formatting_only` exactly when its
character similarity is below 0.95 (whitespace-only changes with character
similarity above 0.95 fall into the earlier `minor_changes` branch). -/
theorem C6_whitespace_only_needs_low_char_similarity (fd : FileDiffRec)
    (hst : fd.status = "modified")
    (hb : strTruthy fd.before_code = true)
    (ha : strTruthy fd.after_code = true)
    (hws : stripWs (fd.before_code.getD "") = stripWs (fd.after_code.getD ""))
    (hsim : charSimOf fd < 95 / 100) :
    (analyzeCodeSimilarity fd).type = "formatting_only" := by
  have hlogic : logicSimOf fd = 1 := by
    unfold logicSimOf
    rw [hws]
    exact seqRatio_self _
  unfold analyzeCodeSimilarity
  rw [if_neg (by rw [hst]; decide), if_neg (by rw [hst]; decide),
    if_pos ⟨hb, ha⟩]
  dsimp only
  rw [if_neg (by push_neg; exact le_of_lt hsim),
    if_pos ⟨by rw [hlogic]; norm_num, hsim⟩]

/-- Claim C6 counterexample: the whitespace-only pair of a ten-character
string with and without a trailing space has character similarity 20 divided
by 21, above 0.95, so the code classifies it `minor_changes`, not
`formatting_only` as the claim states. -/
theorem C6_whitespace_only_can_be_minor_changes_cex :
    stripWs c6Before = stripWs c6After
    ∧ c6Before ≠ c6After ∧ c6Before ≠ "" ∧ c6After ≠ ""
    ∧ c6CexFd.status = "modified"
    ∧ charSimOf c6CexFd = 20 / 21
    ∧ (95 : ℚ) / 100 < 20 / 21
    ∧ (analyzeCodeSimilarity c6CexFd).type = "minor_changes" := by
  have hM : matchSumFuel c6Before.data c6After.data (b2jList c6After.data)
      (c6Before.data.length + c6After.data.length + 1) 0 c6Before.data.length
      0 c6After.data.length = 10 := by decide
  have hT : c6Before.data.length + c6After.data.length = 21 := by decide
  have hsim : charSimOf c6CexFd = 20 / 21 := by
    show calculateRatio
      (matchSumFuel c6Before.data c6After.data (b2jList c6After.data)
        (c6Before.data.length + c6After.data.length + 1) 0 c6Before.data.length
        0 c6After.data.length)
      (c6Before.data.length + c6After.data.length) = 20 / 21
    rw [hM, hT]
    norm_num [calculateRatio]
  refine ⟨by decide, by decide, by decide, by decide, rfl, hsim, by norm_num, ?_⟩
  unfold analyzeCodeSimilarity
  rw [if_neg (by decide), if_neg (by decide), if_pos ⟨by decide, by decide⟩]
  dsimp only
  rw [if_pos (by rw [show charSimOf c6CexFd = 20 / 21 from hsim]; norm_num)]

/-- Claim C6 witness: the whitespace-only pair with ratio 6 divided by 7,
below 0.95, is classified `formatting_only`. -/
theorem C6_whitespace_only_formatting_witness :
    c6wFd.status = "modified"
    ∧ strTruthy c6wFd.before_code = true
    ∧ strTruthy c6wFd.after_code = true
    ∧ stripWs (c6wFd.before_code.getD "") = stripWs (c6wFd.after_code.getD "")
    ∧ charSimOf c6wFd < 95 / 100
    ∧ (analyzeCodeSimilarity c6wFd).type = "formatting_only" := by
  have hM : matchSumFuel c6wBefore.data c6wAfter.data (b2jList c6wAfter.data)
      (c6wBefore.data.length + c6wAfter.data.length + 1) 0 c6wBefore.data.length
      0 c6wAfter.data.length = 3 := by decide
  have hT : c6wBefore.data.length + c6wAfter.data.length = 7 := by decide
  have hsim : charSimOf c6wFd = 6 / 7 := by
    show calculateRatio
      (matchSumFuel c6wBefore.data c6wAfter.data (b2jList c6wAfter.data)
        (c6wBefore.data.length + c6wAfter.data.length + 1) 0 c6wBefore.data.length
        0 c6wAfter.data.length)
      (c6wBefore.data.length + c6wAfter.data.length) = 6 / 7
    rw [hM, hT]
    norm_num [calculateRatio]
  have hlt : charSimOf c6wFd < 95 / 100 := by
    rw [hsim]
    norm_num
  exact ⟨rfl, rfl, rfl, by decide, hlt,
    C6_whitespace_only_needs_low_char_similarity c6wFd rfl rfl rfl (by decide) hlt⟩
